import Mathlib

/-!
# File attack specification of chaosd (`pkg/core/file.go`)

A shallow embedding of `FileCommand`, its validation, its default completion and
its recovery record, and of the command paths of `cmd/attack/file.go` that lead to
them, together with the properties stated about them.

Conventions of the embedding.

* A Go `string` is a finite sequence of bytes (`GoString`); `len` is the number of
  bytes and `==` is equality of the byte sequences.  String literals of the source
  denote their UTF-8 encoding (`goStr`).
* `uint32` is `Nat` and `int` is `Int`; the code under study performs no arithmetic
  on them apart from storing the constant `1`.
* A Go `error` is represented by its message; `nil` is `none`.
* A method with a pointer receiver that assigns to the receiver is a function from
  the record before the call to the record after it.  `Validate` assigns nothing and
  is a function to its error; `ValidateM` is the same method with the record after
  the call made explicit.
* `CommonAttackConfig` is declared outside the files under study.  The fields the
  file attack code touches (`Action`, `Kind`, `UID`) are named, everything else is
  kept in `rest`; its `Validate` method is a parameter `baseValidate`, and what its
  fields are written as and read from in a record are parameters `baseMembers` and
  `baseStore`.
* `RecoverData` calls `json.Marshal`.  The functions of the Go library it reaches
  (`utf8.DecodeRuneInString`, `utf8.AppendRune`, the string and integer encoders, the
  struct encoder with `omitempty`) and the decoder that reads the record back
  (`json.Unmarshal`: its scanner, `unquote`, the lookup of a field by name) are
  embedded as functions on bytes.  The decoder covers objects whose members are
  strings, integers, `true`, `false` or `null`, which is every text `json.Marshal`
  writes for these structs.
-/

namespace core

/-! ## Go strings -/

/-- One byte. -/
abbrev Byte := Fin 256

/-- A Go string: a sequence of bytes. -/
abbrev GoString := List Byte

/-- The conversion `byte(x)` of Go: keeps the low eight bits. -/
def byte (n : Nat) : Byte := ⟨n % 256, Nat.mod_lt _ (by decide)⟩

/-- The value `utf8.RuneError`, U+FFFD. -/
def RuneError : Nat := 0xFFFD

/-- The function `utf8.AppendRune` of Go: the UTF-8 encoding of a rune, with the
encoding of `RuneError` for a surrogate or a value above U+10FFFF. -/
def appendRune (r : Nat) : GoString :=
  if r ≤ 0x7F then [byte r]
  else if r ≤ 0x7FF then [byte (0xC0 + r / 64), byte (0x80 + r % 64)]
  else if r > 0x10FFFF ∨ (0xD800 ≤ r ∧ r ≤ 0xDFFF) then
    [byte (0xE0 + RuneError / 4096), byte (0x80 + RuneError / 64 % 64),
      byte (0x80 + RuneError % 64)]
  else if r ≤ 0xFFFF then
    [byte (0xE0 + r / 4096), byte (0x80 + r / 64 % 64), byte (0x80 + r % 64)]
  else
    [byte (0xF0 + r / 262144), byte (0x80 + r / 4096 % 64), byte (0x80 + r / 64 % 64),
      byte (0x80 + r % 64)]

/-- The tables `first` and `acceptRanges` of package `utf8`: for a leading byte of a
multi-byte sequence, the length of the sequence and the lowest and highest value
accepted for the second byte; `none` for a byte that cannot lead such a sequence. -/
def first (b : Nat) : Option (Nat × Nat × Nat) :=
  if 0xC2 ≤ b ∧ b ≤ 0xDF then some (2, 0x80, 0xBF)
  else if b = 0xE0 then some (3, 0xA0, 0xBF)
  else if 0xE1 ≤ b ∧ b ≤ 0xEC then some (3, 0x80, 0xBF)
  else if b = 0xED then some (3, 0x80, 0x9F)
  else if 0xEE ≤ b ∧ b ≤ 0xEF then some (3, 0x80, 0xBF)
  else if b = 0xF0 then some (4, 0x90, 0xBF)
  else if 0xF1 ≤ b ∧ b ≤ 0xF3 then some (4, 0x80, 0xBF)
  else if b = 0xF4 then some (4, 0x80, 0x8F)
  else none

/-- The function `utf8.DecodeRuneInString`: the first rune of a string and the
number of bytes it occupies; `(RuneError, 1)` when the string does not start with a
well-formed sequence and `(RuneError, 0)` when it is empty.  Masks and shifts are
written as remainders and products. -/
def decodeRune : GoString → Nat × Nat
  | [] => (RuneError, 0)
  | s0 :: t =>
    if s0.val < 0x80 then (s0.val, 1)
    else
      match first s0.val with
      | none => (RuneError, 1)
      | some (sz, lo, hi) =>
        match t with
        | [] => (RuneError, 1)
        | s1 :: t1 =>
          if t.length + 1 < sz then (RuneError, 1)
          else if s1.val < lo ∨ hi < s1.val then (RuneError, 1)
          else if sz ≤ 2 then (s0.val % 32 * 64 + s1.val % 64, 2)
          else
            match t1 with
            | [] => (RuneError, 1)
            | s2 :: t2 =>
              if s2.val < 0x80 ∨ 0xBF < s2.val then (RuneError, 1)
              else if sz ≤ 3 then
                (s0.val % 16 * 4096 + s1.val % 64 * 64 + s2.val % 64, 3)
              else
                match t2 with
                | [] => (RuneError, 1)
                | s3 :: _ =>
                  if s3.val < 0x80 ∨ 0xBF < s3.val then (RuneError, 1)
                  else
                    (s0.val % 8 * 262144 + s1.val % 64 * 4096 + s2.val % 64 * 64
                      + s3.val % 64, 4)

/-- The conversion `[]rune(s)`, with a bound on the number of runes read. -/
def runesAux : Nat → GoString → List Nat
  | 0, _ => []
  | fuel + 1, s =>
    match s with
    | [] => []
    | _ :: _ => (decodeRune s).1 :: runesAux fuel (s.drop (decodeRune s).2)

/-- The conversion `[]rune(s)`: the runes of a string, with `RuneError` for each
byte that starts no well-formed sequence. -/
def runes (s : GoString) : List Nat := runesAux s.length s

/-- The conversion `string(rs)` of a slice of runes. -/
def ofRunes (rs : List Nat) : GoString := (rs.map appendRune).flatten

/-- A string coerced to valid UTF-8, `string([]rune(s))`: each byte that starts no
well-formed sequence is replaced by the encoding of U+FFFD.  This is what a string
becomes when `encoding/json` writes it and reads it back. -/
def toValidUTF8 (s : GoString) : GoString := ofRunes (runes s)

/-- The loop of `utf8.ValidString`, with a bound on the number of runes read. -/
def validAux : Nat → GoString → Bool
  | 0, _ => true
  | fuel + 1, s =>
    match s with
    | [] => true
    | _ :: _ =>
      if decodeRune s = (RuneError, 1) then false
      else validAux fuel (s.drop (decodeRune s).2)

/-- The function `utf8.ValidString`: whether a string is made of well-formed
sequences only. -/
def ValidString (s : GoString) : Bool := validAux s.length s

/-- The Go string denoted by a piece of text: its UTF-8 encoding. -/
def goStr (s : String) : GoString :=
  (s.data.map (fun c => appendRune c.toNat)).flatten

/-- A Go `error`, represented by its message; `none` is `nil`. -/
abbrev error := Option GoString

/-! ## The data model -/

/-- The base attack configuration embedded in every attack specification.  Its
declaration is outside the files under study: `Action` (read by `Validate` and
`CompleteDefaults`), `Kind` (set by `NewFileCommand`) and `UID` (set by the command
line) are the fields the file attack code uses, and `rest` holds the others. -/
structure CommonAttackConfig (R : Type) where
  Action : GoString
  Kind : GoString
  UID : GoString
  rest : R
deriving DecidableEq

/-- The struct `FileCommand`. -/
structure FileCommand (R : Type) extends CommonAttackConfig R where
  FileName : GoString
  DirName : GoString
  Privilege : Nat
  SourceFile : GoString
  DestFile : GoString
  Data : GoString
  Count : Int
  OriginPrivilege : Int
  OriginStr : GoString
  DestStr : GoString
  Line : Int
deriving DecidableEq

def FileCreateAction : GoString := goStr "create"
def FileModifyPrivilegeAction : GoString := goStr "modify"
def FileDeleteAction : GoString := goStr "delete"
def FileRenameAction : GoString := goStr "rename"
def FileAppendAction : GoString := goStr "append"
def FileReplaceAction : GoString := goStr "replace"

/-! ## Validation -/

namespace FileCommand

variable {R : Type}

def validFileCreate (n : FileCommand R) : error :=
  if n.FileName.length = 0 ∧ n.DirName.length = 0 then
    some (goStr "one of file-name and dir-name is required")
  else none

def validFileModify (n : FileCommand R) : error :=
  if n.FileName.length = 0 then some (goStr "file name is required")
  else if n.Privilege = 0 then some (goStr "file privilege is required")
  else none

def validFileDelete (n : FileCommand R) : error :=
  if n.FileName.length = 0 ∧ n.DirName.length = 0 then
    some (goStr "one of file-name and dir-name is required")
  else none

def validFileRename (n : FileCommand R) : error :=
  if n.SourceFile.length = 0 ∨ n.DestFile.length = 0 then
    some (goStr "both source file and destination file are required")
  else none

def validFileAppend (n : FileCommand R) : error :=
  if n.FileName.length = 0 then some (goStr "file-name is required")
  else if n.Data.length = 0 then some (goStr "append data is required")
  else none

def validFileReplace (n : FileCommand R) : error :=
  if n.FileName.length = 0 then some (goStr "file-name is required")
  else if n.OriginStr.length = 0 ∨ n.DestStr.length = 0 then
    some (goStr "both origin and destination string are required")
  else none

/-- The method `Validate`.  The parameter `baseValidate` is the method
`CommonAttackConfig.Validate`; `errors.Errorf` with the verb `%s` writes the bytes
of the action between the two pieces of the format. -/
def Validate (baseValidate : CommonAttackConfig R → error) (n : FileCommand R) : error :=
  match baseValidate n.toCommonAttackConfig with
  | some err => some err
  | none =>
    if n.Action = FileCreateAction then n.validFileCreate
    else if n.Action = FileModifyPrivilegeAction then n.validFileModify
    else if n.Action = FileDeleteAction then n.validFileDelete
    else if n.Action = FileRenameAction then n.validFileRename
    else if n.Action = FileAppendAction then n.validFileAppend
    else if n.Action = FileReplaceAction then n.validFileReplace
    else some (goStr "file action " ++ n.Action ++ goStr " not supported")

/-! ## Default completion -/

def setDefaultForFileAppend (n : FileCommand R) : FileCommand R :=
  if n.Count = 0 then { n with Count := 1 } else n

def CompleteDefaults (n : FileCommand R) : FileCommand R :=
  if n.Action = FileAppendAction then n.setDefaultForFileAppend else n

end FileCommand

/-! ## JSON text: the encoder -/

/-- A JSON value of the kinds a field of these structs is written as.  A string is
its contents as Go bytes; a number is an integer (no field is fractional). -/
inductive JValue
  | null
  | bool (b : Bool)
  | num (n : Int)
  | str (s : GoString)
deriving DecidableEq

/-- A JSON object: its members in the order of the text. -/
abbrev JObject := List (GoString × JValue)

/-- The table `hex` of `encoding/json`: the hexadecimal digit of a value below 16. -/
def hexDigit (n : Nat) : Byte :=
  if n < 10 then byte (0x30 + n) else byte (0x61 + (n - 10))

/-- The table `htmlSafeSet`: the ASCII bytes written as they are.  These are the
bytes from the space on except the double quote, the ampersand, the angle brackets
and the backslash. -/
def htmlSafe (b : Byte) : Bool :=
  decide (0x20 ≤ b.val ∧ b.val < 0x80 ∧ b.val ≠ 0x22 ∧ b.val ≠ 0x26 ∧ b.val ≠ 0x3C ∧
    b.val ≠ 0x3E ∧ b.val ≠ 0x5C)

/-- The escape written for an ASCII byte outside `htmlSafeSet`: a backslash and
the byte for the backslash and the double quote, the two-letter forms of line feed,
carriage return and tab, and the six-letter form with `u00` for the others.  (This
is the encoder of the Go releases of the time of the source; later releases also
write backspace and form feed in two letters, which the decoder reads alike.) -/
def escapeByte (b : Byte) : GoString :=
  if b.val = 0x5C ∨ b.val = 0x22 then [0x5C, b]
  else if b.val = 0x0A then [0x5C, 0x6E]
  else if b.val = 0x0D then [0x5C, 0x72]
  else if b.val = 0x09 then [0x5C, 0x74]
  else [0x5C, 0x75, 0x30, 0x30, hexDigit (b.val / 16), hexDigit (b.val % 16)]

/-- The loop of the function `string` of the encoder (with HTML escaping, the
default of `json.Marshal`), with a bound on the number of steps: safe ASCII bytes
and well-formed sequences are copied, unsafe ASCII bytes are escaped, a byte that
starts no well-formed sequence is written `\ufffd`, and U+2028 and U+2029 are
written `\u2028` and `\u2029`. -/
def escapeAux : Nat → GoString → GoString
  | 0, _ => []
  | fuel + 1, s =>
    match s with
    | [] => []
    | b :: t =>
      if b.val < 0x80 then
        (if htmlSafe b then [b] else escapeByte b) ++ escapeAux fuel t
      else if decodeRune (b :: t) = (RuneError, 1) then
        [0x5C, 0x75, 0x66, 0x66, 0x66, 0x64] ++ escapeAux fuel t
      else if (decodeRune (b :: t)).1 = 0x2028 ∨ (decodeRune (b :: t)).1 = 0x2029 then
        [0x5C, 0x75, 0x32, 0x30, 0x32, hexDigit ((decodeRune (b :: t)).1 % 16)]
          ++ escapeAux fuel ((b :: t).drop (decodeRune (b :: t)).2)
      else
        (b :: t).take (decodeRune (b :: t)).2
          ++ escapeAux fuel ((b :: t).drop (decodeRune (b :: t)).2)

/-- The JSON string literal written for a Go string. -/
def appendString (s : GoString) : GoString :=
  0x22 :: (escapeAux s.length s ++ [0x22])

/-- The decimal digits of a natural number, most significant first, in front of
`acc`; the first argument bounds the number of digits. -/
def formatBits : Nat → Nat → GoString → GoString
  | 0, _, acc => acc
  | fuel + 1, n, acc =>
    if n < 10 then byte (0x30 + n) :: acc
    else formatBits fuel (n / 10) (byte (0x30 + n % 10) :: acc)

/-- The function `strconv.FormatUint` in base 10. -/
def formatUint (n : Nat) : GoString := formatBits (n + 1) n []

/-- The function `strconv.FormatInt` in base 10. -/
def formatInt (i : Int) : GoString :=
  if i < 0 then 0x2D :: formatUint i.natAbs else formatUint i.natAbs

/-- The text written for a value. -/
def renderValue : JValue → GoString
  | JValue.null => goStr "null"
  | JValue.bool true => goStr "true"
  | JValue.bool false => goStr "false"
  | JValue.num i => formatInt i
  | JValue.str s => appendString s

/-- The text written for a member: the quoted name, a colon, the value. -/
def renderMember (m : GoString × JValue) : GoString :=
  appendString m.1 ++ 0x3A :: renderValue m.2

/-- The text written for the members after the first: each behind a comma. -/
def renderRest (ms : JObject) : GoString :=
  (ms.map (fun m => 0x2C :: renderMember m)).flatten

/-- The text of an object as the struct encoder writes it: an opening brace before
the first member, a comma before each other member, a closing brace; `{}` when there
is no member. -/
def render (doc : JObject) : GoString :=
  match doc with
  | [] => [0x7B, 0x7D]
  | m :: ms => 0x7B :: (renderMember m ++ renderRest ms ++ [0x7D])

/-- A JSON value as the decoder reads it back: the contents of a string coerced to
valid UTF-8. -/
def JValue.coerced : JValue → JValue
  | JValue.str s => JValue.str (toValidUTF8 s)
  | v => v

/-- An object as the decoder reads it back. -/
def JObject.coerced (doc : JObject) : JObject :=
  doc.map (fun m => (toValidUTF8 m.1, m.2.coerced))

/-! ## JSON text: the decoder -/

/-- The white space of JSON: space, tab, carriage return, line feed. -/
def isSpace (b : Byte) : Bool :=
  decide (b.val = 0x20 ∨ b.val = 0x09 ∨ b.val = 0x0D ∨ b.val = 0x0A)

def skipSpace (text : GoString) : GoString := text.dropWhile isSpace

/-- The value of a hexadecimal digit, in either case. -/
def hexVal (b : Byte) : Option Nat :=
  if 0x30 ≤ b.val ∧ b.val ≤ 0x39 then some (b.val - 0x30)
  else if 0x61 ≤ b.val ∧ b.val ≤ 0x66 then some (b.val - 0x61 + 10)
  else if 0x41 ≤ b.val ∧ b.val ≤ 0x46 then some (b.val - 0x41 + 10)
  else none

/-- The function `getu4` of the decoder, on the text behind `\u`: the value of the
four hexadecimal digits there and the text behind them. -/
def getu4 (text : GoString) : Option (Nat × GoString) :=
  match text with
  | a :: b :: c :: d :: rest =>
    match hexVal a, hexVal b, hexVal c, hexVal d with
    | some x, some y, some z, some w => some (x * 4096 + y * 256 + z * 16 + w, rest)
    | _, _, _, _ => none
  | _ => none

/-- The rune of a surrogate pair whose first half is `r1`, when the text continues
with the escape of a second half: `utf16.DecodeRune` on the two halves. -/
def surrogatePair (r1 : Nat) (text : GoString) : Option (Nat × GoString) :=
  match text with
  | bs :: u :: rest =>
    if bs.val = 0x5C ∧ u.val = 0x75 then
      match getu4 rest with
      | some (r2, rest2) =>
        if 0xD800 ≤ r1 ∧ r1 < 0xDC00 ∧ 0xDC00 ≤ r2 ∧ r2 < 0xE000 then
          some ((r1 - 0xD800) * 1024 + (r2 - 0xDC00) + 0x10000, rest2)
        else none
      | none => none
    else none
  | _ => none

/-- The byte denoted by the letter of a two-letter escape. -/
def simpleEscape (e : Byte) : Option Byte :=
  if e.val = 0x22 ∨ e.val = 0x5C ∨ e.val = 0x2F then some e
  else if e.val = 0x62 then some 0x08
  else if e.val = 0x66 then some 0x0C
  else if e.val = 0x6E then some 0x0A
  else if e.val = 0x72 then some 0x0D
  else if e.val = 0x74 then some 0x09
  else none

/-- The function `unquote` of the decoder on the text behind an opening quote, with
a bound on the number of steps: the contents of the string literal and the text
behind its closing quote.  Escapes are replaced by what they denote, a lone
surrogate by U+FFFD, and a byte that starts no well-formed sequence by U+FFFD; a
control character or an unknown escape is a syntax error. -/
def unquoteAux : Nat → GoString → Option (GoString × GoString)
  | 0, _ => none
  | fuel + 1, text =>
    match text with
    | [] => none
    | b :: t =>
      if b.val = 0x22 then some ([], t)
      else if b.val = 0x5C then
        match t with
        | [] => none
        | e :: t1 =>
          if e.val = 0x75 then
            match getu4 t1 with
            | none => none
            | some (rr, t2) =>
              if 0xD800 ≤ rr ∧ rr < 0xE000 then
                match surrogatePair rr t2 with
                | some (dec, t3) =>
                  (unquoteAux fuel t3).map (fun p => (appendRune dec ++ p.1, p.2))
                | none =>
                  (unquoteAux fuel t2).map (fun p => (appendRune RuneError ++ p.1, p.2))
              else (unquoteAux fuel t2).map (fun p => (appendRune rr ++ p.1, p.2))
          else
            match simpleEscape e with
            | none => none
            | some c => (unquoteAux fuel t1).map (fun p => (c :: p.1, p.2))
      else if b.val < 0x20 then none
      else if b.val < 0x80 then (unquoteAux fuel t).map (fun p => (b :: p.1, p.2))
      else
        (unquoteAux fuel ((b :: t).drop (decodeRune (b :: t)).2)).map
          (fun p => (appendRune (decodeRune (b :: t)).1 ++ p.1, p.2))

def isDigit (b : Byte) : Bool := decide (0x30 ≤ b.val ∧ b.val ≤ 0x39)

/-- The number denoted by a sequence of decimal digits. -/
def digitsValue (ds : GoString) : Nat :=
  ds.foldl (fun acc d => acc * 10 + (d.val - 0x30)) 0

/-- Whether the text goes on with a fraction or an exponent. -/
def startsFraction (text : GoString) : Bool :=
  match text with
  | b :: _ => decide (b.val = 0x2E ∨ b.val = 0x65 ∨ b.val = 0x45)
  | [] => false

/-- An unsigned integer numeral at the head of the text: a single `0` or a digit
other than `0` followed by digits.  A numeral with a fraction or an exponent is not
an integer and is outside this model. -/
def parseUnsigned (text : GoString) : Option (Nat × GoString) :=
  match text.takeWhile isDigit with
  | [] => none
  | d :: ds =>
    if d.val = 0x30 ∧ ds ≠ [] then none
    else if startsFraction (text.dropWhile isDigit) then none
    else some (digitsValue (d :: ds), text.dropWhile isDigit)

/-- An integer numeral at the head of the text, as `strconv.ParseInt` reads it. -/
def parseNumber (text : GoString) : Option (Int × GoString) :=
  match text with
  | [] => none
  | b :: t =>
    if b.val = 0x2D then (parseUnsigned t).map (fun p => (-(p.1 : Int), p.2))
    else (parseUnsigned (b :: t)).map (fun p => ((p.1 : Int), p.2))

/-- The text behind `word` when the text starts with it. -/
def stripWord (word text : GoString) : Option GoString :=
  if word.isPrefixOf text then some (text.drop word.length) else none

/-- A scalar value at the head of the text, and the text behind it. -/
def parseValue (text : GoString) : Option (JValue × GoString) :=
  match text with
  | [] => none
  | b :: t =>
    if b.val = 0x22 then (unquoteAux t.length t).map (fun p => (JValue.str p.1, p.2))
    else if b.val = 0x2D ∨ isDigit b = true then
      (parseNumber (b :: t)).map (fun p => (JValue.num p.1, p.2))
    else if b.val = 0x74 then (stripWord (goStr "true") (b :: t)).map (fun r => (JValue.bool true, r))
    else if b.val = 0x66 then (stripWord (goStr "false") (b :: t)).map (fun r => (JValue.bool false, r))
    else if b.val = 0x6E then (stripWord (goStr "null") (b :: t)).map (fun r => (JValue.null, r))
    else none

/-- The members of an object, the text standing at the quote that opens the name
of a member, with a bound on the number of members: the members and the text behind
the closing brace. -/
def parseMembers : Nat → GoString → Option (JObject × GoString)
  | 0, _ => none
  | fuel + 1, text =>
    match text with
    | [] => none
    | q :: t =>
      if q.val ≠ 0x22 then none
      else
        match unquoteAux t.length t with
        | none => none
        | some (k, t1) =>
          match skipSpace t1 with
          | [] => none
          | c :: t2 =>
            if c.val ≠ 0x3A then none
            else
              match parseValue (skipSpace t2) with
              | none => none
              | some (v, t3) =>
                match skipSpace t3 with
                | [] => none
                | d :: t4 =>
                  if d.val = 0x2C then
                    (parseMembers fuel (skipSpace t4)).map (fun p => ((k, v) :: p.1, p.2))
                  else if d.val = 0x7D then some ([(k, v)], t4)
                  else none

/-- The object denoted by a text: white space, an opening brace, members separated
by commas, a closing brace, white space.  The model covers objects whose members are
scalars with integer numbers, the shape `json.Marshal` writes for these structs;
`none` is a syntax error or a text outside the model. -/
def parseObject (text : GoString) : Option JObject :=
  match skipSpace text with
  | [] => none
  | b :: t =>
    if b.val ≠ 0x7B then none
    else
      match skipSpace t with
      | [] => none
      | c :: t1 =>
        if c.val = 0x7D then (if skipSpace t1 = [] then some [] else none)
        else
          match parseMembers text.length (c :: t1) with
          | none => none
          | some (ms, rest) => if skipSpace rest = [] then some ms else none

/-! ## The recovery record

`json.Marshal` walks the fields of the struct in order, skips a field tagged
`omitempty` whose value is zero, and writes a member for each other field;
`json.Unmarshal` reads the members of the text in order and stores each into the
field whose name it carries.  The fields of the embedded base configuration are
promoted into the same object; what they are written as and how they are stored is
given by the parameters `baseMembers` and `baseStore`. -/

/-- The values of the members of an object that carry the name `k`. -/
def JObject.values (doc : JObject) (k : GoString) : List JValue :=
  (doc.filter (fun m => decide (m.1 = k))).map (fun m => m.2)

/-- The fields declared in `FileCommand` itself, in the order of declaration. -/
inductive Field
  | FileName | DirName | Privilege | SourceFile | DestFile | Data | Count
  | OriginPrivilege | OriginStr | DestStr | Line
deriving DecidableEq

namespace Field

/-- The name in the `json` tag of each field. -/
def name : Field → GoString
  | FileName => goStr "file-name"
  | DirName => goStr "dir-name"
  | Privilege => goStr "privilege"
  | SourceFile => goStr "source-file"
  | DestFile => goStr "dest-file"
  | Data => goStr "data"
  | Count => goStr "count"
  | OriginPrivilege => goStr "origin-privilege"
  | OriginStr => goStr "origin-string"
  | DestStr => goStr "dest-string"
  | Line => goStr "line"

def all : List Field :=
  [FileName, DirName, Privilege, SourceFile, DestFile, Data, Count, OriginPrivilege,
    OriginStr, DestStr, Line]

/-- The field whose tag is exactly `k`, if any. -/
def ofName (k : GoString) : Option Field := all.find? (fun f => decide (f.name = k))

end Field

/-- What the encoder is handed for a string field tagged `omitempty`: nothing when
its length is 0, otherwise its contents. -/
def omitEmptyString (s : GoString) : Option JValue :=
  if s.length = 0 then none else some (JValue.str s)

/-- What the encoder is handed for an unsigned field tagged `omitempty`. -/
def omitEmptyUint (x : Nat) : Option JValue :=
  if x = 0 then none else some (JValue.num x)

/-- What the encoder is handed for a signed field tagged `omitempty`. -/
def omitEmptyInt (x : Int) : Option JValue :=
  if x = 0 then none else some (JValue.num x)

/-- The decoding of a JSON value into a string field: the new contents of the field
and whether the value was of the wrong type.  A `null` leaves the field as it is. -/
def storeString (v : JValue) (old : GoString) : GoString × Bool :=
  match v with
  | JValue.str s => (s, false)
  | JValue.null => (old, false)
  | _ => (old, true)

/-- The decoding of a JSON value into an unsigned field.  Integers are unbounded
here, so the only number that does not fit is a negative one. -/
def storeUint (v : JValue) (old : Nat) : Nat × Bool :=
  match v with
  | JValue.num i => if 0 ≤ i then (i.toNat, false) else (old, true)
  | JValue.null => (old, false)
  | _ => (old, true)

/-- The decoding of a JSON value into a signed field. -/
def storeInt (v : JValue) (old : Int) : Int × Bool :=
  match v with
  | JValue.num i => (i, false)
  | JValue.null => (old, false)
  | _ => (old, true)

/-- The errors of `json.Unmarshal`: a text that is not read as an object, and a
member whose value does not fit the field it names. -/
inductive DecodeError
  | invalidText
  | typeMismatch (name : GoString)
deriving DecidableEq

/-- The error kept by the decoder: the first one. -/
def firstError (e : Option DecodeError) (bad : Bool) (k : GoString) : Option DecodeError :=
  match e with
  | some x => some x
  | none => if bad then some (DecodeError.typeMismatch k) else none

/-- Whether a text is the literal `null` between white space; decoding it stores
nothing and reports no error. -/
def isNullText (text : GoString) : Bool :=
  match stripWord (goStr "null") (skipSpace text) with
  | some r => decide (skipSpace r = [])
  | none => false

namespace CommonAttackConfig

variable {R : Type}

/-- The zero value of the base configuration, given the zero value of the fields
that are not named here. -/
def zero (r0 : R) : CommonAttackConfig R := { Action := [], Kind := [], UID := [], rest := r0 }

/-- The decoding of the members of an object into a base configuration. -/
def storeMembers
    (baseStore : GoString → JValue → CommonAttackConfig R → CommonAttackConfig R × Bool)
    (doc : JObject) (b : CommonAttackConfig R) : CommonAttackConfig R × Option DecodeError :=
  doc.foldl (fun acc m => ((baseStore m.1 m.2 acc.1).1,
    firstError acc.2 (baseStore m.1 m.2 acc.1).2 m.1)) (b, none)

end CommonAttackConfig

namespace FileCommand

variable {R : Type}

/-- The zero value of `FileCommand`. -/
def zero (r0 : R) : FileCommand R :=
  { CommonAttackConfig.zero r0 with
    FileName := [], DirName := [], Privilege := 0, SourceFile := [], DestFile := [],
    Data := [], Count := 0, OriginPrivilege := 0, OriginStr := [], DestStr := [], Line := 0 }

/-- What the encoder is handed for one field of `FileCommand`: every tag carries
`omitempty`, so nothing for a zero value. -/
def encodeField (n : FileCommand R) : Field → Option JValue
  | Field.FileName => omitEmptyString n.FileName
  | Field.DirName => omitEmptyString n.DirName
  | Field.Privilege => omitEmptyUint n.Privilege
  | Field.SourceFile => omitEmptyString n.SourceFile
  | Field.DestFile => omitEmptyString n.DestFile
  | Field.Data => omitEmptyString n.Data
  | Field.Count => omitEmptyInt n.Count
  | Field.OriginPrivilege => omitEmptyInt n.OriginPrivilege
  | Field.OriginStr => omitEmptyString n.OriginStr
  | Field.DestStr => omitEmptyString n.DestStr
  | Field.Line => omitEmptyInt n.Line

/-- The member written for one field: none or one. -/
def member (n : FileCommand R) (f : Field) : JObject :=
  match n.encodeField f with
  | none => []
  | some v => [(f.name, v)]

/-- The members written for the embedded base configuration: those whose name is
not the name of a field of `FileCommand` itself, which would hide them. -/
def baseFields (baseMembers : CommonAttackConfig R → JObject) (n : FileCommand R) : JObject :=
  (baseMembers n.toCommonAttackConfig).filter (fun m => (Field.ofName m.1).isNone)

/-- The members the encoder writes for a `FileCommand`, with the Go values it is
handed: those of the embedded base configuration, then those of the fields of
`FileCommand` in the order of declaration. -/
def members (baseMembers : CommonAttackConfig R → JObject) (n : FileCommand R) : JObject :=
  n.baseFields baseMembers ++ (Field.all.map n.member).flatten

/-- The text `json.Marshal` returns for a `FileCommand` whose base configuration
is written, without error, as the members `baseMembers`.  The two results of the
call, with the error a field of the base configuration may raise, are
`MarshalResult` below. -/
def Marshal (baseMembers : CommonAttackConfig R → JObject) (n : FileCommand R) : GoString :=
  render (n.members baseMembers)

/-- The method `RecoverData`: the text of `json.Marshal`, as a string. -/
def RecoverData (baseMembers : CommonAttackConfig R → JObject) (n : FileCommand R) : GoString :=
  n.Marshal baseMembers

/-- The decoding of a JSON value into one field of `FileCommand`. -/
def storeField (n : FileCommand R) (f : Field) (v : JValue) : FileCommand R × Bool :=
  match f with
  | Field.FileName =>
    ({ n with FileName := (storeString v n.FileName).1 }, (storeString v n.FileName).2)
  | Field.DirName =>
    ({ n with DirName := (storeString v n.DirName).1 }, (storeString v n.DirName).2)
  | Field.Privilege =>
    ({ n with Privilege := (storeUint v n.Privilege).1 }, (storeUint v n.Privilege).2)
  | Field.SourceFile =>
    ({ n with SourceFile := (storeString v n.SourceFile).1 }, (storeString v n.SourceFile).2)
  | Field.DestFile =>
    ({ n with DestFile := (storeString v n.DestFile).1 }, (storeString v n.DestFile).2)
  | Field.Data => ({ n with Data := (storeString v n.Data).1 }, (storeString v n.Data).2)
  | Field.Count => ({ n with Count := (storeInt v n.Count).1 }, (storeInt v n.Count).2)
  | Field.OriginPrivilege =>
    ({ n with OriginPrivilege := (storeInt v n.OriginPrivilege).1 },
      (storeInt v n.OriginPrivilege).2)
  | Field.OriginStr =>
    ({ n with OriginStr := (storeString v n.OriginStr).1 }, (storeString v n.OriginStr).2)
  | Field.DestStr =>
    ({ n with DestStr := (storeString v n.DestStr).1 }, (storeString v n.DestStr).2)
  | Field.Line => ({ n with Line := (storeInt v n.Line).1 }, (storeInt v n.Line).2)

/-- The decoding of one member into a `FileCommand`: into the field of
`FileCommand` with exactly that name when there is one, into the base configuration
otherwise.  (The library falls back to a match that ignores case for a name that is
the exact name of no field; that fallback is left to `baseStore`.) -/
def storeMember
    (baseStore : GoString → JValue → CommonAttackConfig R → CommonAttackConfig R × Bool)
    (acc : FileCommand R × Option DecodeError) (m : GoString × JValue) :
    FileCommand R × Option DecodeError :=
  match Field.ofName m.1 with
  | some f => ((acc.1.storeField f m.2).1, firstError acc.2 (acc.1.storeField f m.2).2 m.1)
  | none =>
    ({ acc.1 with toCommonAttackConfig := (baseStore m.1 m.2 acc.1.toCommonAttackConfig).1 },
      firstError acc.2 (baseStore m.1 m.2 acc.1.toCommonAttackConfig).2 m.1)

/-- The decoding of the members of an object into a `FileCommand`, in order. -/
def storeMembers
    (baseStore : GoString → JValue → CommonAttackConfig R → CommonAttackConfig R × Bool)
    (doc : JObject) (n : FileCommand R) : FileCommand R × Option DecodeError :=
  doc.foldl (storeMember baseStore) (n, none)

/-- The function `json.Unmarshal` into a `FileCommand`: the record after the call
and the error returned.  A text that is not read as an object stores nothing. -/
def Unmarshal
    (baseStore : GoString → JValue → CommonAttackConfig R → CommonAttackConfig R × Bool)
    (text : GoString) (n : FileCommand R) : FileCommand R × Option DecodeError :=
  match parseObject text with
  | some doc => storeMembers baseStore doc n
  | none => if isNullText text then (n, none) else (n, some DecodeError.invalidText)

/-- The current value of a field as a JSON value, strings byte for byte. -/
def current (n : FileCommand R) : Field → JValue
  | Field.FileName => JValue.str n.FileName
  | Field.DirName => JValue.str n.DirName
  | Field.Privilege => JValue.num n.Privilege
  | Field.SourceFile => JValue.str n.SourceFile
  | Field.DestFile => JValue.str n.DestFile
  | Field.Data => JValue.str n.Data
  | Field.Count => JValue.num n.Count
  | Field.OriginPrivilege => JValue.num n.OriginPrivilege
  | Field.OriginStr => JValue.str n.OriginStr
  | Field.DestStr => JValue.str n.DestStr
  | Field.Line => JValue.num n.Line

/-- The record `m` with the field `f` taken from `n`. -/
def restore (n m : FileCommand R) : Field → FileCommand R
  | Field.FileName => { m with FileName := n.FileName }
  | Field.DirName => { m with DirName := n.DirName }
  | Field.Privilege => { m with Privilege := n.Privilege }
  | Field.SourceFile => { m with SourceFile := n.SourceFile }
  | Field.DestFile => { m with DestFile := n.DestFile }
  | Field.Data => { m with Data := n.Data }
  | Field.Count => { m with Count := n.Count }
  | Field.OriginPrivilege => { m with OriginPrivilege := n.OriginPrivilege }
  | Field.OriginStr => { m with OriginStr := n.OriginStr }
  | Field.DestStr => { m with DestStr := n.DestStr }
  | Field.Line => { m with Line := n.Line }

/-- Every string field declared in `FileCommand` is valid UTF-8. -/
def ValidStrings (n : FileCommand R) : Prop :=
  ValidString n.FileName = true ∧ ValidString n.DirName = true ∧
  ValidString n.SourceFile = true ∧ ValidString n.DestFile = true ∧
  ValidString n.Data = true ∧ ValidString n.OriginStr = true ∧ ValidString n.DestStr = true

instance (n : FileCommand R) : Decidable n.ValidStrings := by
  unfold ValidStrings
  infer_instance

end FileCommand

/-- Whether a JSON value is the encoding of a zero value: the empty string or 0. -/
def JValue.isZero : JValue → Bool
  | JValue.str s => s.length == 0
  | JValue.num i => i == 0
  | _ => false

/-! ## Validation as a step on the record

`Validate` and its helpers have a pointer receiver.  Here each returns the record
after the call next to the error, so that what the call leaves in the record can
be stated.  The helpers assign nothing.  `CommonAttackConfig.Validate` has a pointer
receiver as well and is outside the files under study: the parameter
`baseValidateM` returns the base configuration after the call and the error. -/

namespace FileCommand

variable {R : Type}

def validFileCreateM (n : FileCommand R) : FileCommand R × error := (n, n.validFileCreate)

def validFileModifyM (n : FileCommand R) : FileCommand R × error := (n, n.validFileModify)

def validFileDeleteM (n : FileCommand R) : FileCommand R × error := (n, n.validFileDelete)

def validFileRenameM (n : FileCommand R) : FileCommand R × error := (n, n.validFileRename)

def validFileAppendM (n : FileCommand R) : FileCommand R × error := (n, n.validFileAppend)

def validFileReplaceM (n : FileCommand R) : FileCommand R × error := (n, n.validFileReplace)

/-- The record after the call of the base validation on the embedded configuration. -/
def afterBase (baseValidateM : CommonAttackConfig R → CommonAttackConfig R × error)
    (n : FileCommand R) : FileCommand R :=
  { n with toCommonAttackConfig := (baseValidateM n.toCommonAttackConfig).1 }

/-- The method `Validate` as a step: the record after the call and the error. -/
def ValidateM (baseValidateM : CommonAttackConfig R → CommonAttackConfig R × error)
    (n : FileCommand R) : FileCommand R × error :=
  match (baseValidateM n.toCommonAttackConfig).2 with
  | some err => (n.afterBase baseValidateM, some err)
  | none =>
    if (n.afterBase baseValidateM).Action = FileCreateAction then
      (n.afterBase baseValidateM).validFileCreateM
    else if (n.afterBase baseValidateM).Action = FileModifyPrivilegeAction then
      (n.afterBase baseValidateM).validFileModifyM
    else if (n.afterBase baseValidateM).Action = FileDeleteAction then
      (n.afterBase baseValidateM).validFileDeleteM
    else if (n.afterBase baseValidateM).Action = FileRenameAction then
      (n.afterBase baseValidateM).validFileRenameM
    else if (n.afterBase baseValidateM).Action = FileAppendAction then
      (n.afterBase baseValidateM).validFileAppendM
    else if (n.afterBase baseValidateM).Action = FileReplaceAction then
      (n.afterBase baseValidateM).validFileReplaceM
    else
      (n.afterBase baseValidateM,
        some (goStr "file action " ++ (n.afterBase baseValidateM).Action
          ++ goStr " not supported"))

/-- The fields the rule of an action reads: `FileName` and `DirName` for "create"
and "delete", `FileName` and `Privilege` for "modify", `SourceFile` and `DestFile`
for "rename", `FileName` and `Data` for "append", `FileName`, `OriginStr` and
`DestStr` for "replace", none for another action. -/
def ruleReads (action : GoString) : List Field :=
  if action = FileCreateAction ∨ action = FileDeleteAction then
    [Field.FileName, Field.DirName]
  else if action = FileModifyPrivilegeAction then [Field.FileName, Field.Privilege]
  else if action = FileRenameAction then [Field.SourceFile, Field.DestFile]
  else if action = FileAppendAction then [Field.FileName, Field.Data]
  else if action = FileReplaceAction then [Field.FileName, Field.OriginStr, Field.DestStr]
  else []

end FileCommand

/-- The function `NewFileCommand`: every field zero except `Kind`.  The constant
`FileAttack` is declared outside the files under study and is a parameter, as is
the zero value `r0` of the fields of the base configuration that are not named. -/
def NewFileCommand {R : Type} (FileAttack : GoString) (r0 : R) : FileCommand R :=
  { Action := [], Kind := FileAttack, UID := [], rest := r0,
    FileName := [], DirName := [], Privilege := 0, SourceFile := [], DestFile := [],
    Data := [], Count := 0, OriginPrivilege := 0, OriginStr := [], DestStr := [], Line := 0 }

/-! ## The error of `json.Marshal`

`RecoverData` drops the error of `json.Marshal`; with an error the data is nil and
the string it returns is empty.  The encoder of a struct visits the fields in
order, skips a field tagged `omitempty` whose value is empty, and hands each other
value to the encoder of its type; the first error one of them reports ends the
call.  What the base configuration holds is outside the files under study: the
parameter `baseValues` gives the names and the Go values of the fields of the base
configuration that the encoder visits, which may be values it refuses. -/

/-- The errors `json.Marshal` reports. -/
inductive MarshalError
  | UnsupportedTypeError
  | UnsupportedValueError
  | MarshalerError
deriving DecidableEq

/-- A Go value as the encoder meets it in a field: a string, an unsigned or signed
integer, a boolean, a nil pointer, or a value it refuses (a float that is not
finite, a value of a kind without an encoder such as a channel, a function or a
complex number, a value whose own marshalling method fails). -/
inductive GoValue
  | string (s : GoString)
  | uint (x : Nat)
  | int (x : Int)
  | bool (b : Bool)
  | nilPointer
  | notFinite
  | noEncoder
  | failingMarshaler
deriving DecidableEq

/-- The outcome of the encoder of a value: the JSON value written, or the error. -/
def encodeValue : GoValue → Except MarshalError JValue
  | GoValue.string s => Except.ok (JValue.str s)
  | GoValue.uint x => Except.ok (JValue.num x)
  | GoValue.int x => Except.ok (JValue.num x)
  | GoValue.bool b => Except.ok (JValue.bool b)
  | GoValue.nilPointer => Except.ok JValue.null
  | GoValue.notFinite => Except.error MarshalError.UnsupportedValueError
  | GoValue.noEncoder => Except.error MarshalError.UnsupportedTypeError
  | GoValue.failingMarshaler => Except.error MarshalError.MarshalerError

/-- The function `isEmptyValue` of the encoder, which decides `omitempty`. -/
def GoValue.isEmptyValue : GoValue → Bool
  | GoValue.string s => s.length == 0
  | GoValue.uint x => x == 0
  | GoValue.int x => x == 0
  | GoValue.bool b => !b
  | GoValue.nilPointer => true
  | _ => false

/-- A Go value that is written as a given JSON value. -/
def GoValue.ofJValue : JValue → GoValue
  | JValue.null => GoValue.nilPointer
  | JValue.bool b => GoValue.bool b
  | JValue.num i => GoValue.int i
  | JValue.str s => GoValue.string s

/-- The encoding of the fields the encoder visits, in order: the members written,
or the first error. -/
def encodeMembers : List (GoString × GoValue) → Except MarshalError JObject
  | [] => Except.ok []
  | m :: rest =>
    match encodeValue m.2 with
    | Except.error e => Except.error e
    | Except.ok j =>
      match encodeMembers rest with
      | Except.error e => Except.error e
      | Except.ok doc => Except.ok ((m.1, j) :: doc)

namespace FileCommand

variable {R : Type}

/-- The Go value of each field of `FileCommand`, by its declared type: `string`,
`uint32` or `int`. -/
def fieldValue (n : FileCommand R) : Field → GoValue
  | Field.FileName => GoValue.string n.FileName
  | Field.DirName => GoValue.string n.DirName
  | Field.Privilege => GoValue.uint n.Privilege
  | Field.SourceFile => GoValue.string n.SourceFile
  | Field.DestFile => GoValue.string n.DestFile
  | Field.Data => GoValue.string n.Data
  | Field.Count => GoValue.int n.Count
  | Field.OriginPrivilege => GoValue.int n.OriginPrivilege
  | Field.OriginStr => GoValue.string n.OriginStr
  | Field.DestStr => GoValue.string n.DestStr
  | Field.Line => GoValue.int n.Line

/-- The fields of `FileCommand` the encoder visits: every tag carries `omitempty`,
so those whose value is not empty, in the order of declaration. -/
def fieldValues (n : FileCommand R) : List (GoString × GoValue) :=
  (Field.all.filter (fun f => !(n.fieldValue f).isEmptyValue)).map
    (fun f => (f.name, n.fieldValue f))

/-- The two results of `json.Marshal` on a `FileCommand`: the data and the error.
The fields of the base configuration that no field of `FileCommand` hides come
first; with an error the data is nil. -/
def MarshalResult (baseValues : CommonAttackConfig R → List (GoString × GoValue))
    (n : FileCommand R) : GoString × Option MarshalError :=
  match encodeMembers
      ((baseValues n.toCommonAttackConfig).filter (fun m => (Field.ofName m.1).isNone)
        ++ n.fieldValues) with
  | Except.ok doc => (render doc, none)
  | Except.error e => ([], some e)

/-- The method `RecoverData` with the error of `json.Marshal` in view: the data as
a string, whatever the error.  `RecoverData` above is this string when the base
configuration is written as the members `baseMembers`. -/
def RecoverDataOf (baseValues : CommonAttackConfig R → List (GoString × GoValue))
    (n : FileCommand R) : GoString :=
  (n.MarshalResult baseValues).1

end FileCommand

/-! ## The command line (`cmd/attack/file.go`)

Each subcommand has a `Run` function that sets the action on the options shared by
all of them, the options being as the flags have left them, and starts an
application that obtains the options from the provider of `NewFileAttackCommand`
and calls `commonFileAttackFunc`. -/

/-- The two ways `commonFileAttackFunc` goes on after validation: an exit with the
code for bad arguments and the error, or the call of `ExecuteAttack` with the
options (the executor is outside the files under study). -/
inductive AttackOutcome (R : Type)
  | exitBadArgs (err : GoString)
  | executeAttack (options : FileCommand R)
deriving DecidableEq

section commands

variable {R : Type}

/-- The provider in `NewFileAttackCommand`: it stores the UID of the command line
in the options and hands them out. -/
def provideOptions (uid : GoString) (options : FileCommand R) : FileCommand R :=
  { options with UID := uid }

def commonFileAttackFunc (baseValidate : CommonAttackConfig R → error)
    (options : FileCommand R) : AttackOutcome R :=
  match options.Validate baseValidate with
  | some err => AttackOutcome.exitBadArgs err
  | none => AttackOutcome.executeAttack options

/-- The `Run` function of the command of `NewFileCreateCommand`. -/
def NewFileCreateCommand (baseValidate : CommonAttackConfig R → error) (uid : GoString)
    (options : FileCommand R) : AttackOutcome R :=
  commonFileAttackFunc baseValidate
    (provideOptions uid ({ options with Action := FileCreateAction }).CompleteDefaults)

/-- The `Run` function of the command of `NewFileModifyPrivilegeCommand`. -/
def NewFileModifyPrivilegeCommand (baseValidate : CommonAttackConfig R → error)
    (uid : GoString) (options : FileCommand R) : AttackOutcome R :=
  commonFileAttackFunc baseValidate
    (provideOptions uid { options with Action := FileModifyPrivilegeAction })

/-- The `Run` function of the command of `NewFileDeleteCommand`. -/
def NewFileDeleteCommand (baseValidate : CommonAttackConfig R → error) (uid : GoString)
    (options : FileCommand R) : AttackOutcome R :=
  commonFileAttackFunc baseValidate
    (provideOptions uid ({ options with Action := FileDeleteAction }).CompleteDefaults)

/-- The `Run` function of the command of `NewFileRenameCommand`. -/
def NewFileRenameCommand (baseValidate : CommonAttackConfig R → error) (uid : GoString)
    (options : FileCommand R) : AttackOutcome R :=
  commonFileAttackFunc baseValidate
    (provideOptions uid { options with Action := FileRenameAction })

/-- The `Run` function of the command of `NewFileAppendCommand`. -/
def NewFileAppendCommand (baseValidate : CommonAttackConfig R → error) (uid : GoString)
    (options : FileCommand R) : AttackOutcome R :=
  commonFileAttackFunc baseValidate
    (provideOptions uid { options with Action := FileAppendAction })

/-- The `Run` function of the command of `NewFileReplaceCommand`. -/
def NewFileReplaceCommand (baseValidate : CommonAttackConfig R → error) (uid : GoString)
    (options : FileCommand R) : AttackOutcome R :=
  commonFileAttackFunc baseValidate
    (provideOptions uid { options with Action := FileReplaceAction })

end commands

/-! ## Sample specifications -/

/-- A base validation that accepts every configuration. -/
def acceptBase : CommonAttackConfig Unit → error := fun _ => none

/-- A base validation that rejects every configuration with one message. -/
def rejectBase : CommonAttackConfig Unit → error := fun _ => some (goStr "uid is required")

/-- A sample of what the base configuration is written as: its three named fields
as strings, none of them omitted. -/
def sampleBaseMembers (b : CommonAttackConfig Unit) : JObject :=
  [(goStr "action", JValue.str b.Action), (goStr "kind", JValue.str b.Kind),
    (goStr "uid", JValue.str b.UID)]

/-- The decoding that goes with `sampleBaseMembers`. -/
def sampleBaseStore (k : GoString) (v : JValue) (b : CommonAttackConfig Unit) :
    CommonAttackConfig Unit × Bool :=
  if k = goStr "action" then
    ({ b with Action := (storeString v b.Action).1 }, (storeString v b.Action).2)
  else if k = goStr "kind" then
    ({ b with Kind := (storeString v b.Kind).1 }, (storeString v b.Kind).2)
  else if k = goStr "uid" then
    ({ b with UID := (storeString v b.UID).1 }, (storeString v b.UID).2)
  else (b, false)

/-- The specification with the given action and every other field zero. -/
def blank (action : GoString) : FileCommand Unit :=
  { Action := action, Kind := [], UID := [], rest := (),
    FileName := [], DirName := [], Privilege := 0, SourceFile := [], DestFile := [],
    Data := [], Count := 0, OriginPrivilege := 0, OriginStr := [], DestStr := [], Line := 0 }

def sampleCreate : FileCommand Unit :=
  { blank FileCreateAction with FileName := goStr "a.txt" }

def sampleModify : FileCommand Unit :=
  { blank FileModifyPrivilegeAction with FileName := goStr "a.txt", Privilege := 0 }

def sampleRename : FileCommand Unit :=
  { blank FileRenameAction with SourceFile := goStr "a" }

def sampleAppend : FileCommand Unit :=
  { blank FileAppendAction with FileName := goStr "a.txt", Data := goStr "x" }

def sampleReplace : FileCommand Unit :=
  { blank FileReplaceAction with
    FileName := goStr "a.txt", OriginStr := goStr "foo", DestStr := goStr "bar" }

def sampleUnknown : FileCommand Unit :=
  { blank (goStr "Create") with FileName := goStr "a.txt" }

/-! Populated specifications, one for each action. -/

def populatedCreate : FileCommand Unit :=
  { blank FileCreateAction with
    Kind := goStr "file", UID := goStr "u-1", FileName := goStr "/tmp/é.txt",
    DirName := goStr "/tmp/d" }

def populatedModify : FileCommand Unit :=
  { blank FileModifyPrivilegeAction with
    Kind := goStr "file", UID := goStr "u-2", FileName := goStr "/tmp/a.txt", Privilege := 420,
    OriginPrivilege := 384 }

def populatedDelete : FileCommand Unit :=
  { blank FileDeleteAction with
    Kind := goStr "file", UID := goStr "u-3", FileName := goStr "/tmp/a.txt",
    DirName := goStr "/tmp/d" }

def populatedRename : FileCommand Unit :=
  { blank FileRenameAction with
    Kind := goStr "file", UID := goStr "u-4", SourceFile := goStr "/tmp/a",
    DestFile := goStr "/tmp/b" }

def populatedAppend : FileCommand Unit :=
  { blank FileAppendAction with
    Kind := goStr "file", UID := goStr "u-5", FileName := goStr "/tmp/a.txt",
    Data := goStr "x\n\"y\" €", Count := 3 }

def populatedReplace : FileCommand Unit :=
  { blank FileReplaceAction with
    Kind := goStr "file", UID := goStr "u-6", FileName := goStr "/tmp/a.txt",
    OriginStr := goStr "foo", DestStr := goStr "<bar>", Line := 2 }

/-- A "create" specification whose file name is the single byte 0xFF, which is not
valid UTF-8 (a file name a Unix command line can carry). -/
def invalidName : FileCommand Unit :=
  { blank FileCreateAction with FileName := [0xFF] }

/-- A "delete" specification whose directory name ends in a truncated sequence. -/
def invalidDir : FileCommand Unit :=
  { blank FileDeleteAction with DirName := goStr "d" ++ [0xC3] }

/-- The options of the command line `append -f a.txt -d x -c 0`: the action is not
set yet, the count is the 0 given with the flag. -/
def appendOptions : FileCommand Unit :=
  { blank [] with FileName := goStr "a.txt", Data := goStr "x", Count := 0 }

/-- An "append" specification with a negative count. -/
def negativeAppend : FileCommand Unit :=
  { blank FileAppendAction with FileName := goStr "a.txt", Data := goStr "x", Count := -2 }

/-- A "create" specification that agrees with `sampleCreate` on `FileName` and
`DirName` and differs in fields the rule of "create" does not read. -/
def sampleCreateNoise : FileCommand Unit :=
  { blank FileCreateAction with
    FileName := goStr "a.txt", Privilege := 7, Data := goStr "zzz", Count := 9, Line := 4 }

/-- A sample of the fields of the base configuration the encoder visits: its three
named fields, strings that are not omitted. -/
def sampleBaseValues (b : CommonAttackConfig Unit) : List (GoString × GoValue) :=
  [(goStr "action", GoValue.string b.Action), (goStr "kind", GoValue.string b.Kind),
    (goStr "uid", GoValue.string b.UID)]

/-- A base configuration with a field the encoder refuses. -/
def refusedBaseValues (b : CommonAttackConfig Unit) : List (GoString × GoValue) :=
  [(goStr "action", GoValue.string b.Action), (goStr "done", GoValue.noEncoder)]

/-- An "append" specification whose data is the single byte 0x80, which is not valid
UTF-8. -/
def invalidData : FileCommand Unit :=
  { blank FileAppendAction with FileName := goStr "a.txt", Data := [0x80], Count := 1 }

/-- The same specification with the single byte 0xFE as its data. -/
def invalidDataOther : FileCommand Unit :=
  { blank FileAppendAction with FileName := goStr "a.txt", Data := [0xFE], Count := 1 }

/-- A base validation as a step that accepts every configuration and leaves it as
it is. -/
def acceptBaseM : CommonAttackConfig Unit → CommonAttackConfig Unit × error :=
  fun b => (b, none)

/-! ## Properties of UTF-8 coding -/

theorem first_cases (b : Nat) (hb : b < 256) (h80 : ¬ b < 0x80) :
    first b = none ∨
    (first b = some (2, 0x80, 0xBF) ∧ 0xC2 ≤ b ∧ b ≤ 0xDF) ∨
    (first b = some (3, 0xA0, 0xBF) ∧ b = 0xE0) ∨
    (first b = some (3, 0x80, 0xBF) ∧ 0xE1 ≤ b ∧ b ≤ 0xEF ∧ b ≠ 0xED) ∨
    (first b = some (3, 0x80, 0x9F) ∧ b = 0xED) ∨
    (first b = some (4, 0x90, 0xBF) ∧ b = 0xF0) ∨
    (first b = some (4, 0x80, 0xBF) ∧ 0xF1 ≤ b ∧ b ≤ 0xF3) ∨
    (first b = some (4, 0x80, 0x8F) ∧ b = 0xF4) := by
  unfold first
  split_ifs <;> simp <;> omega

theorem byte_val (n : Nat) : (byte n).val = n % 256 := rfl

theorem byte_eq (n : Nat) (b : Byte) (h : n = b.val) : byte n = b := by
  apply Fin.ext
  rw [byte_val, h]
  exact Nat.mod_eq_of_lt b.isLt

theorem decodeRune_two (s0 s1 : Byte) (t1 : GoString) (lo hi : Nat)
    (h80 : ¬ s0.val < 0x80) (hf : first s0.val = some (2, lo, hi)) :
    decodeRune (s0 :: s1 :: t1)
      = if s1.val < lo ∨ hi < s1.val then (RuneError, 1)
        else (s0.val % 32 * 64 + s1.val % 64, 2) := by
  simp [decodeRune, h80, hf]

theorem decodeRune_three (s0 s1 s2 : Byte) (t2 : GoString) (lo hi : Nat)
    (h80 : ¬ s0.val < 0x80) (hf : first s0.val = some (3, lo, hi)) :
    decodeRune (s0 :: s1 :: s2 :: t2)
      = if s1.val < lo ∨ hi < s1.val then (RuneError, 1)
        else if s2.val < 0x80 ∨ 0xBF < s2.val then (RuneError, 1)
        else (s0.val % 16 * 4096 + s1.val % 64 * 64 + s2.val % 64, 3) := by
  simp [decodeRune, h80, hf]

theorem decodeRune_four (s0 s1 s2 s3 : Byte) (t3 : GoString) (lo hi : Nat)
    (h80 : ¬ s0.val < 0x80) (hf : first s0.val = some (4, lo, hi)) :
    decodeRune (s0 :: s1 :: s2 :: s3 :: t3)
      = if s1.val < lo ∨ hi < s1.val then (RuneError, 1)
        else if s2.val < 0x80 ∨ 0xBF < s2.val then (RuneError, 1)
        else if s3.val < 0x80 ∨ 0xBF < s3.val then (RuneError, 1)
        else (s0.val % 8 * 262144 + s1.val % 64 * 4096 + s2.val % 64 * 64 + s3.val % 64, 4) := by
  simp [decodeRune, h80, hf]

/-- A string too short for the sequence its first byte announces does not decode. -/
theorem decodeRune_short (s0 : Byte) (t : GoString) (sz lo hi : Nat)
    (h80 : ¬ s0.val < 0x80) (hf : first s0.val = some (sz, lo, hi))
    (hlen : t.length + 1 < sz) : decodeRune (s0 :: t) = (RuneError, 1) := by
  rcases t with _ | ⟨s1, t1⟩
  · simp [decodeRune, h80, hf]
  · simp only [List.length_cons] at hlen
    simp [decodeRune, h80, hf, hlen]

theorem appendRune_two (r : Nat) (h1 : 0x80 ≤ r) (h2 : r ≤ 0x7FF) :
    appendRune r = [byte (0xC0 + r / 64), byte (0x80 + r % 64)] := by
  unfold appendRune
  rw [if_neg (by omega), if_pos h2]

theorem appendRune_three (r : Nat) (h1 : 0x800 ≤ r) (h2 : r ≤ 0xFFFF)
    (h3 : ¬ (0xD800 ≤ r ∧ r ≤ 0xDFFF)) :
    appendRune r = [byte (0xE0 + r / 4096), byte (0x80 + r / 64 % 64), byte (0x80 + r % 64)] := by
  unfold appendRune
  rw [if_neg (by omega), if_neg (by omega), if_neg (by omega), if_pos h2]

theorem appendRune_four (r : Nat) (h1 : 0x10000 ≤ r) (h2 : r ≤ 0x10FFFF) :
    appendRune r = [byte (0xF0 + r / 262144), byte (0x80 + r / 4096 % 64),
      byte (0x80 + r / 64 % 64), byte (0x80 + r % 64)] := by
  unfold appendRune
  rw [if_neg (by omega), if_neg (by omega), if_neg (by omega), if_neg (by omega)]

theorem appendRune_decodeRune_two (s0 s1 : Byte) (t1 : GoString) (lo hi : Nat)
    (h80 : ¬ s0.val < 0x80) (hf : first s0.val = some (2, lo, hi))
    (hr : 0xC2 ≤ s0.val ∧ s0.val ≤ 0xDF) (hlo : 0x80 ≤ lo) (hhi : hi ≤ 0xBF)
    (h : decodeRune (s0 :: s1 :: t1) ≠ (RuneError, 1)) :
    appendRune (decodeRune (s0 :: s1 :: t1)).1 = (s0 :: s1 :: t1).take (decodeRune (s0 :: s1 :: t1)).2
      ∧ 1 ≤ (decodeRune (s0 :: s1 :: t1)).2 := by
  rw [decodeRune_two s0 s1 t1 lo hi h80 hf] at h ⊢
  split_ifs at h ⊢ with c
  · exact absurd rfl h
  · have h1 := s1.isLt
    refine ⟨?_, by simp⟩
    rw [appendRune_two _ (by omega) (by omega)]
    simp only [List.take_succ_cons, List.take_zero]
    rw [byte_eq _ s0 (by omega), byte_eq _ s1 (by omega)]

theorem appendRune_decodeRune_three (s0 s1 s2 : Byte) (t2 : GoString) (lo hi : Nat)
    (h80 : ¬ s0.val < 0x80) (hf : first s0.val = some (3, lo, hi))
    (hr : 0xE0 ≤ s0.val ∧ s0.val ≤ 0xEF) (hlo : 0x80 ≤ lo) (hhi : hi ≤ 0xBF)
    (hE0 : s0.val = 0xE0 → 0xA0 ≤ lo) (hED : s0.val = 0xED → hi ≤ 0x9F)
    (h : decodeRune (s0 :: s1 :: s2 :: t2) ≠ (RuneError, 1)) :
    appendRune (decodeRune (s0 :: s1 :: s2 :: t2)).1
        = (s0 :: s1 :: s2 :: t2).take (decodeRune (s0 :: s1 :: s2 :: t2)).2
      ∧ 1 ≤ (decodeRune (s0 :: s1 :: s2 :: t2)).2 := by
  rw [decodeRune_three s0 s1 s2 t2 lo hi h80 hf] at h ⊢
  split_ifs at h ⊢ with c c'
  · exact absurd rfl h
  · exact absurd rfl h
  · have h1 := s1.isLt
    have h2 := s2.isLt
    refine ⟨?_, by simp⟩
    have hE0' : s0.val = 0xE0 → 0xA0 ≤ s1.val := fun e => by have := hE0 e; omega
    have hED' : s0.val = 0xED → s1.val ≤ 0x9F := fun e => by have := hED e; omega
    rw [appendRune_three _ (by omega) (by omega) (by omega)]
    simp only [List.take_succ_cons, List.take_zero]
    rw [byte_eq _ s0 (by omega), byte_eq _ s1 (by omega), byte_eq _ s2 (by omega)]

theorem appendRune_decodeRune_four (s0 s1 s2 s3 : Byte) (t3 : GoString) (lo hi : Nat)
    (h80 : ¬ s0.val < 0x80) (hf : first s0.val = some (4, lo, hi))
    (hr : 0xF0 ≤ s0.val ∧ s0.val ≤ 0xF4) (hlo : 0x80 ≤ lo) (hhi : hi ≤ 0xBF)
    (hF0 : s0.val = 0xF0 → 0x90 ≤ lo) (hF4 : s0.val = 0xF4 → hi ≤ 0x8F)
    (h : decodeRune (s0 :: s1 :: s2 :: s3 :: t3) ≠ (RuneError, 1)) :
    appendRune (decodeRune (s0 :: s1 :: s2 :: s3 :: t3)).1
        = (s0 :: s1 :: s2 :: s3 :: t3).take (decodeRune (s0 :: s1 :: s2 :: s3 :: t3)).2
      ∧ 1 ≤ (decodeRune (s0 :: s1 :: s2 :: s3 :: t3)).2 := by
  rw [decodeRune_four s0 s1 s2 s3 t3 lo hi h80 hf] at h ⊢
  split_ifs at h ⊢ with c c' c''
  · exact absurd rfl h
  · exact absurd rfl h
  · exact absurd rfl h
  · have h1 := s1.isLt
    have h2 := s2.isLt
    have h3 := s3.isLt
    refine ⟨?_, by simp⟩
    have hF0' : s0.val = 0xF0 → 0x90 ≤ s1.val := fun e => by have := hF0 e; omega
    have hF4' : s0.val = 0xF4 → s1.val ≤ 0x8F := fun e => by have := hF4 e; omega
    rw [appendRune_four _ (by omega) (by omega)]
    simp only [List.take_succ_cons, List.take_zero]
    rw [byte_eq _ s0 (by omega), byte_eq _ s1 (by omega), byte_eq _ s2 (by omega),
      byte_eq _ s3 (by omega)]

/-- A well-formed leading sequence is reproduced by encoding the rune it decodes to. -/
theorem appendRune_decodeRune (s : GoString) (hs : s ≠ [])
    (h : decodeRune s ≠ (RuneError, 1)) :
    appendRune (decodeRune s).1 = s.take (decodeRune s).2 ∧ 1 ≤ (decodeRune s).2 := by
  rcases s with _ | ⟨s0, t⟩
  · exact absurd rfl hs
  have h0 := s0.isLt
  by_cases h80 : s0.val < 0x80
  · simp only [decodeRune, h80, if_true, List.take_succ_cons, List.take_zero, le_refl, and_true]
    unfold appendRune
    rw [if_pos (by omega)]
    rw [byte_eq _ s0 rfl]
  · rcases first_cases s0.val h0 h80 with hf | ⟨hf, hr⟩ | ⟨hf, hr⟩ | ⟨hf, hr⟩ | ⟨hf, hr⟩ |
      ⟨hf, hr⟩ | ⟨hf, hr⟩ | ⟨hf, hr⟩
    · simp [decodeRune, h80, hf] at h
    · rcases t with _ | ⟨s1, t1⟩
      · exact absurd (decodeRune_short s0 [] _ _ _ h80 hf (by simp)) h
      · exact appendRune_decodeRune_two s0 s1 t1 _ _ h80 hf hr (by omega) (by omega) h
    all_goals
      rcases t with _ | ⟨s1, _ | ⟨s2, t2⟩⟩
      · exact absurd (decodeRune_short s0 [] _ _ _ h80 hf (by simp)) h
      · exact absurd (decodeRune_short s0 [s1] _ _ _ h80 hf (by simp)) h
      first
      | exact appendRune_decodeRune_three s0 s1 s2 t2 _ _ h80 hf (by omega) (by omega)
          (by omega) (by omega) (by omega) h
      | (rcases t2 with _ | ⟨s3, t3⟩
         · exact absurd (decodeRune_short s0 [s1, s2] _ _ _ h80 hf (by simp)) h
         · exact appendRune_decodeRune_four s0 s1 s2 s3 t3 _ _ h80 hf (by omega) (by omega)
             (by omega) (by omega) (by omega) h)

theorem ofRunes_cons (r : Nat) (rs : List Nat) : ofRunes (r :: rs) = appendRune r ++ ofRunes rs := by
  simp [ofRunes]

theorem ofRunes_runesAux (fuel : Nat) : ∀ s : GoString, s.length ≤ fuel →
    validAux fuel s = true → ofRunes (runesAux fuel s) = s := by
  induction fuel with
  | zero =>
    intro s hlen _
    have : s = [] := List.length_eq_zero.mp (Nat.le_zero.mp hlen)
    subst this
    rfl
  | succ fuel ih =>
    intro s hlen hv
    rcases s with _ | ⟨b, t⟩
    · rfl
    · simp only [validAux] at hv
      split_ifs at hv with hbad
      obtain ⟨henc, hpos⟩ := appendRune_decodeRune (b :: t) (List.cons_ne_nil _ _) hbad
      simp only [runesAux, ofRunes_cons]
      rw [henc, ih _ _ hv, List.take_append_drop]
      simp only [List.length_drop, List.length_cons] at hlen ⊢
      omega

/-- A string that is valid UTF-8 is unchanged by the passage through runes. -/
theorem toValidUTF8_of_valid (s : GoString) (h : ValidString s = true) : toValidUTF8 s = s :=
  ofRunes_runesAux s.length s (le_refl _) h

theorem decodeRune_ascii (s0 : Byte) (t : GoString) (h80 : s0.val < 0x80) :
    decodeRune (s0 :: t) = (s0.val, 1) := by
  simp [decodeRune, h80]

theorem appendRune_ascii (b : Byte) (h80 : b.val < 0x80) : appendRune b.val = [b] := by
  unfold appendRune
  rw [if_pos (by omega), byte_eq _ b rfl]

/-- A well-formed leading sequence lies within the string, and what it decodes to
does not depend on what follows it. -/
theorem decodeRune_prefix (s : GoString) (hs : s ≠ []) (h : decodeRune s ≠ (RuneError, 1)) :
    (decodeRune s).2 ≤ s.length ∧
    ∀ X : GoString, decodeRune (s.take (decodeRune s).2 ++ X) = decodeRune s := by
  rcases s with _ | ⟨s0, t⟩
  · exact absurd rfl hs
  have h0 := s0.isLt
  by_cases h80 : s0.val < 0x80
  · rw [decodeRune_ascii s0 t h80]
    refine ⟨by simp, fun X => ?_⟩
    simp only [List.take_succ_cons, List.take_zero, List.singleton_append]
    exact decodeRune_ascii s0 X h80
  · rcases first_cases s0.val h0 h80 with hf | ⟨hf, -⟩ | ⟨hf, -⟩ | ⟨hf, -⟩ | ⟨hf, -⟩ |
      ⟨hf, -⟩ | ⟨hf, -⟩ | ⟨hf, -⟩
    · simp [decodeRune, h80, hf] at h
    · rcases t with _ | ⟨s1, t1⟩
      · exact absurd (decodeRune_short s0 [] _ _ _ h80 hf (by simp)) h
      · rw [decodeRune_two s0 s1 t1 _ _ h80 hf] at h ⊢
        split_ifs at h ⊢ with c
        · exact absurd rfl h
        · refine ⟨by simp, fun X => ?_⟩
          simp only [List.take_succ_cons, List.take_zero, List.cons_append, List.nil_append]
          rw [decodeRune_two s0 s1 X _ _ h80 hf, if_neg c]
    all_goals
      rcases t with _ | ⟨s1, _ | ⟨s2, t2⟩⟩
      · exact absurd (decodeRune_short s0 [] _ _ _ h80 hf (by simp)) h
      · exact absurd (decodeRune_short s0 [s1] _ _ _ h80 hf (by simp)) h
      first
      | (rw [decodeRune_three s0 s1 s2 t2 _ _ h80 hf] at h ⊢
         split_ifs at h ⊢ with c c'
         · exact absurd rfl h
         · exact absurd rfl h
         · refine ⟨by simp, fun X => ?_⟩
           simp only [List.take_succ_cons, List.take_zero, List.cons_append, List.nil_append]
           rw [decodeRune_three s0 s1 s2 X _ _ h80 hf, if_neg c, if_neg c'])
      | (rcases t2 with _ | ⟨s3, t3⟩
         · exact absurd (decodeRune_short s0 [s1, s2] _ _ _ h80 hf (by simp)) h
         · rw [decodeRune_four s0 s1 s2 s3 t3 _ _ h80 hf] at h ⊢
           split_ifs at h ⊢ with c c' c''
           · exact absurd rfl h
           · exact absurd rfl h
           · exact absurd rfl h
           · refine ⟨by simp, fun X => ?_⟩
             simp only [List.take_succ_cons, List.take_zero, List.cons_append,
               List.nil_append]
             rw [decodeRune_four s0 s1 s2 s3 X _ _ h80 hf, if_neg c, if_neg c', if_neg c''])

/-! ## Properties of validation -/

section validation

variable {R : Type} (baseValidate : CommonAttackConfig R → error) (n : FileCommand R)

theorem actions_distinct :
    FileCreateAction ≠ FileModifyPrivilegeAction ∧ FileCreateAction ≠ FileDeleteAction ∧
    FileCreateAction ≠ FileRenameAction ∧ FileCreateAction ≠ FileAppendAction ∧
    FileCreateAction ≠ FileReplaceAction ∧ FileModifyPrivilegeAction ≠ FileDeleteAction ∧
    FileModifyPrivilegeAction ≠ FileRenameAction ∧
    FileModifyPrivilegeAction ≠ FileAppendAction ∧
    FileModifyPrivilegeAction ≠ FileReplaceAction ∧ FileDeleteAction ≠ FileRenameAction ∧
    FileDeleteAction ≠ FileAppendAction ∧ FileDeleteAction ≠ FileReplaceAction ∧
    FileRenameAction ≠ FileAppendAction ∧ FileRenameAction ≠ FileReplaceAction ∧
    FileAppendAction ≠ FileReplaceAction := by
  decide

theorem Validate_create (hbase : baseValidate n.toCommonAttackConfig = none)
    (hact : n.Action = FileCreateAction) : n.Validate baseValidate = n.validFileCreate := by
  simp [FileCommand.Validate, hbase, hact]

theorem Validate_modify (hbase : baseValidate n.toCommonAttackConfig = none)
    (hact : n.Action = FileModifyPrivilegeAction) :
    n.Validate baseValidate = n.validFileModify := by
  obtain ⟨h1, -⟩ := actions_distinct
  simp [FileCommand.Validate, hbase, hact, h1.symm]

theorem Validate_delete (hbase : baseValidate n.toCommonAttackConfig = none)
    (hact : n.Action = FileDeleteAction) : n.Validate baseValidate = n.validFileDelete := by
  obtain ⟨-, h2, -, -, -, h6, -⟩ := actions_distinct
  simp [FileCommand.Validate, hbase, hact, h2.symm, h6.symm]

theorem Validate_rename (hbase : baseValidate n.toCommonAttackConfig = none)
    (hact : n.Action = FileRenameAction) : n.Validate baseValidate = n.validFileRename := by
  obtain ⟨-, -, h3, -, -, -, h7, -, -, h10, -⟩ := actions_distinct
  simp [FileCommand.Validate, hbase, hact, h3.symm, h7.symm, h10.symm]

theorem Validate_append (hbase : baseValidate n.toCommonAttackConfig = none)
    (hact : n.Action = FileAppendAction) : n.Validate baseValidate = n.validFileAppend := by
  obtain ⟨-, -, -, h4, -, -, -, h8, -, -, h11, -, h13, -⟩ := actions_distinct
  simp [FileCommand.Validate, hbase, hact, h4.symm, h8.symm, h11.symm, h13.symm]

theorem Validate_replace (hbase : baseValidate n.toCommonAttackConfig = none)
    (hact : n.Action = FileReplaceAction) : n.Validate baseValidate = n.validFileReplace := by
  obtain ⟨-, -, -, -, h5, -, -, -, h9, -, -, h12, -, h14, h15⟩ := actions_distinct
  simp [FileCommand.Validate, hbase, hact, h5.symm, h9.symm, h12.symm, h14.symm, h15.symm]

/-- C1: when base validation passes and the action is "create" or "delete",
`Validate` succeeds exactly when `FileName` or `DirName` is non-empty, and when both
are empty it fails with the message "one of file-name and dir-name is required". -/
theorem Validate_create_delete_spec
    (hbase : baseValidate n.toCommonAttackConfig = none)
    (hact : n.Action = FileCreateAction ∨ n.Action = FileDeleteAction) :
    (n.Validate baseValidate = none ↔ (n.FileName ≠ [] ∨ n.DirName ≠ [])) ∧
    (n.FileName = [] ∧ n.DirName = [] →
      n.Validate baseValidate = some (goStr "one of file-name and dir-name is required")) := by
  have hv : n.Validate baseValidate
      = if n.FileName.length = 0 ∧ n.DirName.length = 0 then
          some (goStr "one of file-name and dir-name is required")
        else none := by
    rcases hact with h | h
    · rw [Validate_create baseValidate n hbase h]; rfl
    · rw [Validate_delete baseValidate n hbase h]; rfl
  rw [hv]
  simp only [List.length_eq_zero]
  constructor
  · by_cases h : n.FileName = [] ∧ n.DirName = []
    · simp [h]
    · simp only [h, if_false, true_iff]
      by_contra hc
      exact h ⟨by_contra fun hf => hc (Or.inl hf), by_contra fun hd => hc (Or.inr hd)⟩
  · intro h
    simp [h]

theorem Validate_create_delete_spec_witness :
    acceptBase sampleCreate.toCommonAttackConfig = none ∧
    (sampleCreate.Action = FileCreateAction ∨ sampleCreate.Action = FileDeleteAction) ∧
    ((sampleCreate.Validate acceptBase = none ↔
        (sampleCreate.FileName ≠ [] ∨ sampleCreate.DirName ≠ [])) ∧
      (sampleCreate.FileName = [] ∧ sampleCreate.DirName = [] →
        sampleCreate.Validate acceptBase
          = some (goStr "one of file-name and dir-name is required"))) :=
  ⟨rfl, Or.inl rfl, Validate_create_delete_spec acceptBase sampleCreate rfl (Or.inl rfl)⟩

/-- C2: when base validation passes and the action is "modify", `Validate` fails
with "file name is required" when `FileName` is empty whatever `Privilege` is,
otherwise fails with "file privilege is required" when `Privilege` is 0, and
otherwise succeeds. -/
theorem Validate_modify_spec
    (hbase : baseValidate n.toCommonAttackConfig = none)
    (hact : n.Action = FileModifyPrivilegeAction) :
    (n.FileName = [] → n.Validate baseValidate = some (goStr "file name is required")) ∧
    (n.FileName ≠ [] → n.Privilege = 0 →
      n.Validate baseValidate = some (goStr "file privilege is required")) ∧
    (n.FileName ≠ [] → n.Privilege ≠ 0 → n.Validate baseValidate = none) := by
  rw [Validate_modify baseValidate n hbase hact]
  simp only [FileCommand.validFileModify, List.length_eq_zero]
  refine ⟨fun h => by simp [h], fun h hp => by simp [h, hp], fun h hp => by simp [h, hp]⟩

theorem Validate_modify_spec_witness :
    acceptBase sampleModify.toCommonAttackConfig = none ∧
    sampleModify.Action = FileModifyPrivilegeAction ∧
    ((sampleModify.FileName = [] →
        sampleModify.Validate acceptBase = some (goStr "file name is required")) ∧
      (sampleModify.FileName ≠ [] → sampleModify.Privilege = 0 →
        sampleModify.Validate acceptBase = some (goStr "file privilege is required")) ∧
      (sampleModify.FileName ≠ [] → sampleModify.Privilege ≠ 0 →
        sampleModify.Validate acceptBase = none)) :=
  ⟨rfl, rfl, Validate_modify_spec acceptBase sampleModify rfl rfl⟩

/-- C3: when base validation passes and the action is "rename", `Validate`
succeeds exactly when `SourceFile` and `DestFile` are both non-empty, and otherwise
fails with "both source file and destination file are required". -/
theorem Validate_rename_spec
    (hbase : baseValidate n.toCommonAttackConfig = none)
    (hact : n.Action = FileRenameAction) :
    (n.Validate baseValidate = none ↔ (n.SourceFile ≠ [] ∧ n.DestFile ≠ [])) ∧
    (¬ (n.SourceFile ≠ [] ∧ n.DestFile ≠ []) →
      n.Validate baseValidate
        = some (goStr "both source file and destination file are required")) := by
  rw [Validate_rename baseValidate n hbase hact]
  simp only [FileCommand.validFileRename, List.length_eq_zero]
  by_cases hs : n.SourceFile = [] <;> by_cases hd : n.DestFile = [] <;> simp [hs, hd]

theorem Validate_rename_spec_witness :
    acceptBase sampleRename.toCommonAttackConfig = none ∧
    sampleRename.Action = FileRenameAction ∧
    ((sampleRename.Validate acceptBase = none ↔
        (sampleRename.SourceFile ≠ [] ∧ sampleRename.DestFile ≠ [])) ∧
      (¬ (sampleRename.SourceFile ≠ [] ∧ sampleRename.DestFile ≠ []) →
        sampleRename.Validate acceptBase
          = some (goStr "both source file and destination file are required"))) :=
  ⟨rfl, rfl, Validate_rename_spec acceptBase sampleRename rfl rfl⟩

/-- C4: when base validation passes and the action is "append", `Validate` fails
with "file-name is required" when `FileName` is empty, otherwise fails with "append
data is required" when `Data` is empty, and otherwise succeeds; `Count` does not
occur in the conditions, so this holds for every `Count`, 0 included. -/
theorem Validate_append_spec
    (hbase : baseValidate n.toCommonAttackConfig = none)
    (hact : n.Action = FileAppendAction) :
    (n.FileName = [] → n.Validate baseValidate = some (goStr "file-name is required")) ∧
    (n.FileName ≠ [] → n.Data = [] →
      n.Validate baseValidate = some (goStr "append data is required")) ∧
    (n.FileName ≠ [] → n.Data ≠ [] → n.Validate baseValidate = none) := by
  rw [Validate_append baseValidate n hbase hact]
  simp only [FileCommand.validFileAppend, List.length_eq_zero]
  refine ⟨fun h => by simp [h], fun h hp => by simp [h, hp], fun h hp => by simp [h, hp]⟩

theorem Validate_append_spec_witness :
    acceptBase sampleAppend.toCommonAttackConfig = none ∧
    sampleAppend.Action = FileAppendAction ∧ sampleAppend.Count = 0 ∧
    ((sampleAppend.FileName = [] →
        sampleAppend.Validate acceptBase = some (goStr "file-name is required")) ∧
      (sampleAppend.FileName ≠ [] → sampleAppend.Data = [] →
        sampleAppend.Validate acceptBase = some (goStr "append data is required")) ∧
      (sampleAppend.FileName ≠ [] → sampleAppend.Data ≠ [] →
        sampleAppend.Validate acceptBase = none)) :=
  ⟨rfl, rfl, rfl, Validate_append_spec acceptBase sampleAppend rfl rfl⟩

/-- C5: when base validation passes and the action is "replace", `Validate` fails
with "file-name is required" when `FileName` is empty, otherwise fails with "both
origin and destination string are required" when `OriginStr` or `DestStr` is empty,
and otherwise succeeds; `Line` does not occur in the conditions, so this holds for
every `Line`, 0 included. -/
theorem Validate_replace_spec
    (hbase : baseValidate n.toCommonAttackConfig = none)
    (hact : n.Action = FileReplaceAction) :
    (n.FileName = [] → n.Validate baseValidate = some (goStr "file-name is required")) ∧
    (n.FileName ≠ [] → (n.OriginStr = [] ∨ n.DestStr = []) →
      n.Validate baseValidate
        = some (goStr "both origin and destination string are required")) ∧
    (n.FileName ≠ [] → n.OriginStr ≠ [] → n.DestStr ≠ [] →
      n.Validate baseValidate = none) := by
  rw [Validate_replace baseValidate n hbase hact]
  simp only [FileCommand.validFileReplace, List.length_eq_zero]
  refine ⟨fun h => by simp [h], fun h hp => by simp [h, hp], fun h ho hd => by simp [h, ho, hd]⟩

theorem Validate_replace_spec_witness :
    acceptBase sampleReplace.toCommonAttackConfig = none ∧
    sampleReplace.Action = FileReplaceAction ∧ sampleReplace.Line = 0 ∧
    ((sampleReplace.FileName = [] →
        sampleReplace.Validate acceptBase = some (goStr "file-name is required")) ∧
      (sampleReplace.FileName ≠ [] →
        (sampleReplace.OriginStr = [] ∨ sampleReplace.DestStr = []) →
        sampleReplace.Validate acceptBase
          = some (goStr "both origin and destination string are required")) ∧
      (sampleReplace.FileName ≠ [] → sampleReplace.OriginStr ≠ [] →
        sampleReplace.DestStr ≠ [] → sampleReplace.Validate acceptBase = none)) :=
  ⟨rfl, rfl, rfl, Validate_replace_spec acceptBase sampleReplace rfl rfl⟩

/-- C6: when base validation passes and the action is none of the six action
tags, `Validate` fails, whatever the other fields hold, with the message "file
action <tag> not supported" where <tag> is the action of the spec. -/
theorem Validate_unsupported_spec
    (hbase : baseValidate n.toCommonAttackConfig = none)
    (h1 : n.Action ≠ FileCreateAction) (h2 : n.Action ≠ FileModifyPrivilegeAction)
    (h3 : n.Action ≠ FileDeleteAction) (h4 : n.Action ≠ FileRenameAction)
    (h5 : n.Action ≠ FileAppendAction) (h6 : n.Action ≠ FileReplaceAction) :
    n.Validate baseValidate
      = some (goStr "file action " ++ n.Action ++ goStr " not supported") := by
  simp [FileCommand.Validate, hbase, h1, h2, h3, h4, h5, h6]

theorem Validate_unsupported_spec_witness :
    acceptBase sampleUnknown.toCommonAttackConfig = none ∧
    sampleUnknown.Action = goStr "Create" ∧
    sampleUnknown.Validate acceptBase = some (goStr "file action Create not supported") :=
  ⟨rfl, rfl,
    (Validate_unsupported_spec acceptBase sampleUnknown rfl (by decide) (by decide)
      (by decide) (by decide) (by decide) (by decide)).trans (by decide)⟩

/-- C7: if the base validation fails with error `e` then `Validate` returns
exactly `e`, whatever the action and the variant fields; and whenever `Validate`
returns something other than the result of the base validation, the base validation
has succeeded. -/
theorem Validate_base_error_spec :
    (∀ e, baseValidate n.toCommonAttackConfig = some e → n.Validate baseValidate = some e) ∧
    (n.Validate baseValidate ≠ baseValidate n.toCommonAttackConfig →
      baseValidate n.toCommonAttackConfig = none) := by
  constructor
  · intro e he
    simp [FileCommand.Validate, he]
  · intro hne
    cases hb : baseValidate n.toCommonAttackConfig with
    | none => rfl
    | some e => exact absurd (by simp [FileCommand.Validate, hb]) (hb ▸ hne)

theorem Validate_base_error_spec_witness :
    rejectBase sampleCreate.toCommonAttackConfig = some (goStr "uid is required") ∧
    sampleCreate.Validate rejectBase = some (goStr "uid is required") ∧
    sampleUnknown.Validate rejectBase = some (goStr "uid is required") :=
  ⟨rfl, (Validate_base_error_spec rejectBase sampleCreate).1 _ rfl,
    (Validate_base_error_spec rejectBase sampleUnknown).1 _ rfl⟩

end validation

/-! ## Properties of default completion -/

section defaults

variable {R : Type} (n : FileCommand R)

/-- C10: `CompleteDefaults` on an "append" spec with `Count = 0` sets `Count` to 1
and changes no other field; on an "append" spec with `Count > 0` and on a spec with
any other action it changes nothing. -/
theorem CompleteDefaults_spec :
    (n.Action = FileAppendAction → n.Count = 0 →
      n.CompleteDefaults = { n with Count := 1 }) ∧
    (n.Action = FileAppendAction → n.Count > 0 → n.CompleteDefaults = n) ∧
    (n.Action ≠ FileAppendAction → n.CompleteDefaults = n) := by
  refine ⟨fun ha hc => ?_, fun ha hc => ?_, fun ha => ?_⟩
  · simp [FileCommand.CompleteDefaults, FileCommand.setDefaultForFileAppend, ha, hc]
  · have : n.Count ≠ 0 := by omega
    simp [FileCommand.CompleteDefaults, FileCommand.setDefaultForFileAppend, ha, this]
  · simp [FileCommand.CompleteDefaults, ha]

theorem CompleteDefaults_spec_witness :
    sampleAppend.Action = FileAppendAction ∧ sampleAppend.Count = 0 ∧
    sampleAppend.CompleteDefaults = { sampleAppend with Count := 1 } ∧
    sampleAppend.CompleteDefaults.Count = 1 :=
  ⟨rfl, rfl, (CompleteDefaults_spec sampleAppend).1 rfl rfl,
    congrArg FileCommand.Count ((CompleteDefaults_spec sampleAppend).1 rfl rfl)⟩

end defaults

/-! ## Reading back what the encoder wrote -/

theorem hexVal_hexDigit (k : Nat) (hk : k < 16) : hexVal (hexDigit k) = some k := by
  revert k
  decide

theorem unquoteAux_safe (fuel : Nat) (b : Byte) (X : GoString) (hsafe : htmlSafe b = true) :
    unquoteAux (fuel + 1) (b :: X) = (unquoteAux fuel X).map (fun p => (b :: p.1, p.2)) := by
  simp only [htmlSafe, decide_eq_true_eq] at hsafe
  simp only [unquoteAux]
  rw [if_neg (by omega), if_neg (by omega), if_neg (by omega), if_pos (by omega)]

theorem getu4_low (h l : Nat) (hh : h < 16) (hl : l < 16) (X : GoString) :
    getu4 (0x30 :: 0x30 :: hexDigit h :: hexDigit l :: X) = some (h * 16 + l, X) := by
  have e0 : hexVal (0x30 : Byte) = some 0 := by decide
  simp [getu4, hexVal_hexDigit, hh, hl, e0]

theorem unquoteAux_escapeByte (fuel : Nat) (b : Byte) (X : GoString) (h80 : b.val < 0x80)
    (hsafe : htmlSafe b = false) :
    unquoteAux (fuel + 1) (escapeByte b ++ X)
      = (unquoteAux fuel X).map (fun p => (b :: p.1, p.2)) := by
  simp only [htmlSafe, decide_eq_false_iff_not] at hsafe
  unfold escapeByte
  split_ifs with c1 c2 c3 c4
  · have e : simpleEscape b = some b := by
      unfold simpleEscape
      rw [if_pos (by omega)]
    have hu : ¬ b.val = 0x75 := by omega
    simp [unquoteAux, hu, e, Fin.coe_ofNat_eq_mod]
  · have hb : b = 0x0A := Fin.ext c2
    subst hb
    simp [unquoteAux, simpleEscape, Fin.coe_ofNat_eq_mod]
  · have hb : b = 0x0D := Fin.ext c3
    subst hb
    simp [unquoteAux, simpleEscape, Fin.coe_ofNat_eq_mod]
  · have hb : b = 0x09 := Fin.ext c4
    subst hb
    simp [unquoteAux, simpleEscape, Fin.coe_ofNat_eq_mod]
  · have hg := getu4_low (b.val / 16) (b.val % 16) (by omega) (by omega) X
    have hv : b.val / 16 * 16 + b.val % 16 = b.val := by omega
    rw [hv] at hg
    have hs : ¬ (0xD800 ≤ b.val ∧ b.val < 0xE000) := by omega
    simp [unquoteAux, hg, hs, appendRune_ascii b h80, Fin.coe_ofNat_eq_mod]

theorem unquoteAux_replacement (fuel : Nat) (X : GoString) :
    unquoteAux (fuel + 1) ([0x5C, 0x75, 0x66, 0x66, 0x66, 0x64] ++ X)
      = (unquoteAux fuel X).map (fun p => (appendRune RuneError ++ p.1, p.2)) := by
  have ef : hexVal (0x66 : Byte) = some 15 := by decide
  have ed : hexVal (0x64 : Byte) = some 13 := by decide
  simp [unquoteAux, getu4, ef, ed, Fin.coe_ofNat_eq_mod, RuneError]

theorem unquoteAux_separator (fuel : Nat) (c : Nat) (X : GoString)
    (hc : c = 0x2028 ∨ c = 0x2029) :
    unquoteAux (fuel + 1) ([0x5C, 0x75, 0x32, 0x30, 0x32, hexDigit (c % 16)] ++ X)
      = (unquoteAux fuel X).map (fun p => (appendRune c ++ p.1, p.2)) := by
  have e2 : hexVal (0x32 : Byte) = some 2 := by decide
  have e0 : hexVal (0x30 : Byte) = some 0 := by decide
  rcases hc with rfl | rfl <;>
    simp [unquoteAux, getu4, e2, e0, hexVal_hexDigit, Fin.coe_ofNat_eq_mod]

theorem unquoteAux_verbatim (fuel : Nat) (b : Byte) (t X : GoString) (h80 : ¬ b.val < 0x80)
    (h : decodeRune (b :: t) ≠ (RuneError, 1)) :
    unquoteAux (fuel + 1) ((b :: t).take (decodeRune (b :: t)).2 ++ X)
      = (unquoteAux fuel X).map
          (fun p => (appendRune (decodeRune (b :: t)).1 ++ p.1, p.2)) := by
  obtain ⟨hlen, hpre⟩ := decodeRune_prefix (b :: t) (List.cons_ne_nil _ _) h
  obtain ⟨-, hpos⟩ := appendRune_decodeRune (b :: t) (List.cons_ne_nil _ _) h
  have hX := hpre X
  obtain ⟨k, hk⟩ : ∃ k, (decodeRune (b :: t)).2 = k + 1 := ⟨_, (Nat.sub_add_cancel hpos).symm⟩
  have hdrop : ((b :: t).take (decodeRune (b :: t)).2 ++ X).drop (decodeRune (b :: t)).2 = X := by
    apply List.drop_left'
    rw [List.length_take]
    exact Nat.min_eq_left hlen
  rw [hk] at hX hdrop ⊢
  simp only [List.take_succ_cons, List.cons_append] at hX hdrop ⊢
  have hb := b.isLt
  simp only [unquoteAux]
  rw [if_neg (by omega), if_neg (by omega), if_neg (by omega), if_neg h80, hX, hk]
  simp only [hdrop]

/-- The decoder reads the contents written for a string as the string coerced to
valid UTF-8. -/
theorem unquoteAux_escapeAux (n : Nat) : ∀ (s rest : GoString) (fuel : Nat),
    s.length ≤ n → (escapeAux n s).length < fuel →
    unquoteAux fuel (escapeAux n s ++ 0x22 :: rest) = some (ofRunes (runesAux n s), rest) := by
  induction n with
  | zero =>
    intro s rest fuel _ hfuel
    obtain ⟨f, rfl⟩ : ∃ f, fuel = f + 1 := ⟨fuel - 1, by omega⟩
    simp [escapeAux, runesAux, unquoteAux, ofRunes, Fin.coe_ofNat_eq_mod]
  | succ n ih =>
    intro s rest fuel hlen hfuel
    obtain ⟨f, rfl⟩ : ∃ f, fuel = f + 1 := ⟨fuel - 1, by omega⟩
    rcases s with _ | ⟨b, t⟩
    · simp [escapeAux, runesAux, unquoteAux, ofRunes, Fin.coe_ofNat_eq_mod]
    · simp only [List.length_cons] at hlen
      simp only [escapeAux] at hfuel ⊢
      simp only [runesAux, ofRunes_cons]
      by_cases h80 : b.val < 0x80
      · rw [if_pos h80] at hfuel ⊢
        rw [decodeRune_ascii b t h80]
        simp only [List.drop_succ_cons, List.drop_zero, appendRune_ascii b h80,
          List.singleton_append]
        by_cases hsafe : htmlSafe b = true
        · rw [if_pos hsafe] at hfuel ⊢
          simp only [List.singleton_append, List.cons_append, List.nil_append,
            List.length_cons] at hfuel ⊢
          rw [unquoteAux_safe f b _ hsafe, ih t rest f (by omega) (by omega)]
          rfl
        · rw [if_neg hsafe] at hfuel ⊢
          have hpos : 1 ≤ (escapeByte b).length := by
            unfold escapeByte
            split_ifs <;> simp
          rw [List.length_append] at hfuel
          rw [List.append_assoc, unquoteAux_escapeByte f b _ h80 (by simpa using hsafe),
            ih t rest f (by omega) (by omega)]
          rfl
      · rw [if_neg h80] at hfuel ⊢
        by_cases hbad : decodeRune (b :: t) = (RuneError, 1)
        · rw [if_pos hbad] at hfuel ⊢
          rw [List.length_append] at hfuel
          simp only [List.length_cons, List.length_nil] at hfuel
          rw [hbad]
          simp only [List.drop_succ_cons, List.drop_zero]
          rw [List.append_assoc, unquoteAux_replacement, ih t rest f (by omega) (by omega)]
          rfl
        · rw [if_neg hbad] at hfuel ⊢
          obtain ⟨hle, -⟩ := decodeRune_prefix (b :: t) (List.cons_ne_nil _ _) hbad
          obtain ⟨-, hpos⟩ := appendRune_decodeRune (b :: t) (List.cons_ne_nil _ _) hbad
          have hdl : ((b :: t).drop (decodeRune (b :: t)).2).length ≤ n := by
            simp only [List.length_drop, List.length_cons]
            omega
          by_cases hsep : (decodeRune (b :: t)).1 = 0x2028 ∨ (decodeRune (b :: t)).1 = 0x2029
          · rw [if_pos hsep] at hfuel ⊢
            rw [List.length_append] at hfuel
            simp only [List.length_cons, List.length_nil] at hfuel
            rw [List.append_assoc, unquoteAux_separator f _ _ hsep,
              ih _ rest f hdl (by omega)]
            rfl
          · rw [if_neg hsep] at hfuel ⊢
            rw [List.length_append, List.length_take] at hfuel
            simp only [List.length_cons] at hfuel hle
            rw [List.append_assoc, unquoteAux_verbatim f b t _ h80 hbad,
              ih _ rest f hdl (by omega)]
            rfl

/-- The decoder reads the literal written for a string as the string coerced to
valid UTF-8. -/
theorem unquoteAux_appendString (s rest : GoString) :
    ∃ X, appendString s ++ rest = 0x22 :: X ∧
      unquoteAux X.length X = some (toValidUTF8 s, rest) := by
  refine ⟨escapeAux s.length s ++ 0x22 :: rest, by simp [appendString], ?_⟩
  exact unquoteAux_escapeAux s.length s rest _ (le_refl _) (by simp)

theorem digitsValue_append_singleton (ds : GoString) (d : Byte) :
    digitsValue (ds ++ [d]) = digitsValue ds * 10 + (d.val - 0x30) := by
  simp [digitsValue, List.foldl_append]

theorem isDigit_byte (n : Nat) (hn : n < 10) : isDigit (byte (0x30 + n)) = true := by
  simp only [isDigit, byte_val, decide_eq_true_eq]
  omega

/-- The digits written for a number: they are digits, they denote the number, and
the first one is `0` only when it is the only one. -/
theorem formatBits_spec (fuel : Nat) : ∀ (n : Nat) (acc : GoString), n < fuel →
    ∃ d ds, formatBits fuel n acc = d :: ds ++ acc ∧ (∀ x ∈ d :: ds, isDigit x = true) ∧
      digitsValue (d :: ds) = n ∧ (d.val = 0x30 → ds = []) := by
  induction fuel with
  | zero => intro n _ h; omega
  | succ fuel ih =>
    intro n acc hn
    by_cases h10 : n < 10
    · refine ⟨byte (0x30 + n), [], by simp [formatBits, h10], ?_, ?_, fun _ => rfl⟩
      · intro x hx
        rw [List.mem_singleton.mp hx]
        exact isDigit_byte n h10
      · simp only [digitsValue, List.foldl_cons, List.foldl_nil, byte_val]
        omega
    · obtain ⟨d, ds, hfmt, hdig, hval, hzero⟩ :=
        ih (n / 10) (byte (0x30 + n % 10) :: acc) (by omega)
      refine ⟨d, ds ++ [byte (0x30 + n % 10)], ?_, ?_, ?_, ?_⟩
      · simp [formatBits, h10, hfmt]
      · intro x hx
        rw [← List.cons_append, List.mem_append] at hx
        rcases hx with hx | hx
        · exact hdig x hx
        · rw [List.mem_singleton.mp hx]
          exact isDigit_byte _ (by omega)
      · rw [← List.cons_append, digitsValue_append_singleton, hval, byte_val]
        omega
      · intro hd
        have hds := hzero hd
        subst hds
        simp only [digitsValue, List.foldl_cons, List.foldl_nil] at hval
        omega

theorem takeWhile_digits (ds : GoString) (c : Byte) (r : GoString)
    (hds : ∀ x ∈ ds, isDigit x = true) (hc : isDigit c = false) :
    (ds ++ c :: r).takeWhile isDigit = ds ∧ (ds ++ c :: r).dropWhile isDigit = c :: r := by
  induction ds with
  | nil => simp [List.takeWhile, List.dropWhile, hc]
  | cons d ds ih =>
    have hd := hds d (List.mem_cons_self _ _)
    obtain ⟨h1, h2⟩ := ih (fun x hx => hds x (List.mem_cons_of_mem _ hx))
    simp [List.takeWhile, List.dropWhile, hd, h1, h2]

theorem parseUnsigned_formatUint (n : Nat) (c : Byte) (r : GoString)
    (hc : c.val = 0x2C ∨ c.val = 0x7D) :
    parseUnsigned (formatUint n ++ c :: r) = some (n, c :: r) := by
  obtain ⟨d, ds, hfmt, hdig, hval, hzero⟩ := formatBits_spec (n + 1) n [] (by omega)
  have hcd : isDigit c = false := by
    simp only [isDigit, decide_eq_false_iff_not]
    omega
  have hfr : startsFraction (c :: r) = false := by
    simp only [startsFraction, decide_eq_false_iff_not]
    omega
  unfold formatUint
  rw [hfmt, List.append_nil]
  obtain ⟨h1, h2⟩ := takeWhile_digits (d :: ds) c r hdig hcd
  unfold parseUnsigned
  rw [h1, h2]
  simp only [hfr]
  rw [if_neg (fun h => h.2 (hzero h.1)), hval]
  simp

theorem formatUint_head (n : Nat) :
    ∃ d ds, formatUint n = d :: ds ∧ isDigit d = true := by
  obtain ⟨d, ds, hfmt, hdig, -, -⟩ := formatBits_spec (n + 1) n [] (by omega)
  exact ⟨d, ds, by simpa [formatUint] using hfmt, hdig d (List.mem_cons_self _ _)⟩

theorem parseNumber_formatInt (i : Int) (c : Byte) (r : GoString)
    (hc : c.val = 0x2C ∨ c.val = 0x7D) :
    parseNumber (formatInt i ++ c :: r) = some (i, c :: r) := by
  unfold formatInt
  split_ifs with hneg
  · simp only [List.cons_append, parseNumber, Fin.coe_ofNat_eq_mod]
    rw [if_pos (by decide), parseUnsigned_formatUint _ c r hc]
    simp only [Option.map_some', Option.some.injEq, Prod.mk.injEq, and_true]
    omega
  · obtain ⟨d, ds, hd, hdig⟩ := formatUint_head i.natAbs
    have hp := parseUnsigned_formatUint i.natAbs c r hc
    rw [hd] at hp ⊢
    simp only [isDigit, decide_eq_true_eq] at hdig
    simp only [List.cons_append, parseNumber] at hp ⊢
    rw [if_neg (by omega), hp]
    simp only [Option.map_some', Option.some.injEq, Prod.mk.injEq, and_true]
    omega

theorem skipSpace_cons (c : Byte) (r : GoString) (h : isSpace c = false) :
    skipSpace (c :: r) = c :: r := by
  simp [skipSpace, List.dropWhile, h]

theorem isSpace_of_val (c : Byte) (h : c.val ≠ 0x20 ∧ c.val ≠ 0x09 ∧ c.val ≠ 0x0D ∧ c.val ≠ 0x0A) :
    isSpace c = false := by
  simp only [isSpace, decide_eq_false_iff_not]
  omega

theorem goStr_true : goStr "true" = [0x74, 0x72, 0x75, 0x65] := by decide

theorem goStr_false : goStr "false" = [0x66, 0x61, 0x6C, 0x73, 0x65] := by decide

theorem goStr_null : goStr "null" = [0x6E, 0x75, 0x6C, 0x6C] := by decide

/-- The decoder reads the text written for a value, in front of a comma or a
closing brace, as the value coerced. -/
theorem parseValue_renderValue (v : JValue) (c : Byte) (r : GoString)
    (hc : c.val = 0x2C ∨ c.val = 0x7D) :
    parseValue (renderValue v ++ c :: r) = some (v.coerced, c :: r) := by
  cases v with
  | null =>
    simp +decide [renderValue, goStr_null, parseValue, stripWord, List.isPrefixOf,
      JValue.coerced, Fin.coe_ofNat_eq_mod, isDigit]
  | bool b =>
    cases b <;>
      simp +decide [renderValue, goStr_true, goStr_false, parseValue, stripWord,
        List.isPrefixOf, JValue.coerced, Fin.coe_ofNat_eq_mod, isDigit]
  | num i =>
    have hp := parseNumber_formatInt i c r hc
    simp only [renderValue]
    unfold formatInt at hp ⊢
    split_ifs at hp ⊢ with hneg
    · simp only [List.cons_append] at hp ⊢
      simp only [parseValue, Fin.coe_ofNat_eq_mod]
      rw [if_neg (by decide), if_pos (Or.inl (by decide)), hp]
      rfl
    · obtain ⟨d, ds, hd, hdig⟩ := formatUint_head i.natAbs
      rw [hd] at hp ⊢
      simp only [List.cons_append] at hp ⊢
      have hdv := hdig
      simp only [isDigit, decide_eq_true_eq] at hdv
      simp only [parseValue]
      rw [if_neg (by omega), if_pos (Or.inr hdig), hp]
      rfl
  | str s =>
    obtain ⟨X, hX, hu⟩ := unquoteAux_appendString s (c :: r)
    simp only [renderValue]
    rw [hX]
    simp only [parseValue, Fin.coe_ofNat_eq_mod]
    rw [if_pos (by decide), hu]
    rfl

/-- The text written for a value starts with a byte that is not white space. -/
theorem renderValue_head (v : JValue) :
    ∃ c r, renderValue v = c :: r ∧ isSpace c = false := by
  cases v with
  | null => exact ⟨_, _, goStr_null, by decide⟩
  | bool b =>
    cases b
    · exact ⟨_, _, goStr_false, by decide⟩
    · exact ⟨_, _, goStr_true, by decide⟩
  | num i =>
    simp only [renderValue]
    unfold formatInt
    split_ifs
    · exact ⟨_, _, rfl, by decide⟩
    · obtain ⟨d, ds, hd, hdig⟩ := formatUint_head i.natAbs
      refine ⟨d, ds, hd, ?_⟩
      simp only [isDigit, decide_eq_true_eq] at hdig
      exact isSpace_of_val d (by omega)
  | str s => exact ⟨0x22, _, rfl, by decide⟩

theorem renderRest_head (ms : JObject) (tail : GoString) :
    ∃ c r, renderRest ms ++ 0x7D :: tail = c :: r ∧ (c.val = 0x2C ∨ c.val = 0x7D) := by
  cases ms with
  | nil => exact ⟨0x7D, tail, rfl, Or.inr rfl⟩
  | cons m ms =>
    exact ⟨0x2C, renderMember m ++ (renderRest ms ++ 0x7D :: tail), by simp [renderRest],
      Or.inl rfl⟩

/-- The decoder reads the members written for an object as the members coerced. -/
theorem parseMembers_render (ms : JObject) : ∀ (m : GoString × JValue) (tail : GoString)
    (fuel : Nat), ms.length < fuel →
    parseMembers fuel (renderMember m ++ (renderRest ms ++ 0x7D :: tail))
      = some (JObject.coerced (m :: ms), tail) := by
  induction ms with
  | nil =>
    intro m tail fuel hfuel
    obtain ⟨f, rfl⟩ : ∃ f, fuel = f + 1 := ⟨fuel - 1, by simp at hfuel; omega⟩
    obtain ⟨k, v⟩ := m
    obtain ⟨X, hX, hu⟩ := unquoteAux_appendString k
      (0x3A :: (renderValue v ++ (renderRest [] ++ 0x7D :: tail)))
    obtain ⟨c, r, hv, hsp⟩ := renderValue_head v
    have hpv := parseValue_renderValue v 0x7D tail (Or.inr rfl)
    simp only [renderMember, List.append_assoc, List.cons_append]
    rw [hX]
    simp only [parseMembers, Fin.coe_ofNat_eq_mod]
    rw [if_neg (by decide), hu]
    simp only [renderRest, List.map_nil, List.flatten_nil, List.nil_append]
    rw [skipSpace_cons _ _ (by decide)]
    simp only [Fin.coe_ofNat_eq_mod]
    rw [if_neg (by decide)]
    have hsk : skipSpace (renderValue v ++ 0x7D :: tail) = renderValue v ++ 0x7D :: tail := by
      rw [hv, List.cons_append]
      exact skipSpace_cons _ _ hsp
    rw [hsk, hpv]
    simp only
    rw [skipSpace_cons _ _ (by decide)]
    simp only [Fin.coe_ofNat_eq_mod]
    rw [if_neg (by decide), if_pos (by decide)]
    rfl
  | cons m' ms ih =>
    intro m tail fuel hfuel
    obtain ⟨f, rfl⟩ : ∃ f, fuel = f + 1 := ⟨fuel - 1, by simp at hfuel; omega⟩
    obtain ⟨k, v⟩ := m
    have hR : renderRest (m' :: ms) ++ 0x7D :: tail
        = 0x2C :: (renderMember m' ++ (renderRest ms ++ 0x7D :: tail)) := by
      simp [renderRest]
    obtain ⟨X, hX, hu⟩ := unquoteAux_appendString k
      (0x3A :: (renderValue v ++ (renderRest (m' :: ms) ++ 0x7D :: tail)))
    obtain ⟨c, r, hv, hsp⟩ := renderValue_head v
    have hpv := parseValue_renderValue v 0x2C
      (renderMember m' ++ (renderRest ms ++ 0x7D :: tail)) (Or.inl rfl)
    have hnext : skipSpace (renderMember m' ++ (renderRest ms ++ 0x7D :: tail))
        = renderMember m' ++ (renderRest ms ++ 0x7D :: tail) := by
      simp only [renderMember, appendString, List.cons_append]
      exact skipSpace_cons _ _ (by decide)
    simp only [renderMember, List.append_assoc, List.cons_append]
    rw [hX]
    simp only [parseMembers, Fin.coe_ofNat_eq_mod]
    rw [if_neg (by decide), hu]
    simp only
    rw [skipSpace_cons _ _ (by decide)]
    simp only [Fin.coe_ofNat_eq_mod]
    rw [if_neg (by decide), hR]
    have hsk : skipSpace (renderValue v ++ 0x2C :: (renderMember m' ++ (renderRest ms ++ 0x7D :: tail)))
        = renderValue v ++ 0x2C :: (renderMember m' ++ (renderRest ms ++ 0x7D :: tail)) := by
      rw [hv, List.cons_append]
      exact skipSpace_cons _ _ hsp
    rw [hsk, hpv]
    simp only
    rw [skipSpace_cons _ _ (by decide)]
    simp only [Fin.coe_ofNat_eq_mod]
    rw [if_pos (by decide), hnext, ih m' tail f (by simp at hfuel; omega)]
    rfl

theorem length_renderRest (ms : JObject) : ms.length ≤ (renderRest ms).length := by
  induction ms with
  | nil => simp [renderRest]
  | cons m ms ih =>
    simp only [renderRest, List.map_cons, List.flatten_cons, List.length_append,
      List.length_cons] at ih ⊢
    omega

/-- The decoder reads the text written for an object as the object coerced. -/
theorem parseObject_render (doc : JObject) : parseObject (render doc) = some doc.coerced := by
  cases doc with
  | nil => decide
  | cons m ms =>
    have hnext : skipSpace (renderMember m ++ renderRest ms ++ [0x7D])
        = renderMember m ++ renderRest ms ++ [0x7D] := by
      simp only [renderMember, appendString, List.cons_append]
      exact skipSpace_cons _ _ (by decide)
    have hlen : ms.length < (0x7B :: (renderMember m ++ renderRest ms ++ [0x7D])).length := by
      have := length_renderRest ms
      simp only [List.length_cons, List.length_append, List.length_nil]
      omega
    have hp := parseMembers_render ms m [] _ hlen
    rw [← List.append_assoc] at hp
    have hq : ∃ X, renderMember m ++ renderRest ms ++ [0x7D] = 0x22 :: X :=
      ⟨escapeAux m.1.length m.1 ++ [0x22] ++ 0x3A :: renderValue m.2 ++ renderRest ms ++ [0x7D],
        by simp [renderMember, appendString]⟩
    obtain ⟨X, hX⟩ := hq
    unfold parseObject
    rw [show render (m :: ms) = 0x7B :: (renderMember m ++ renderRest ms ++ [0x7D]) from rfl]
    rw [skipSpace_cons _ _ (by decide)]
    simp only [Fin.coe_ofNat_eq_mod]
    rw [if_neg (by decide), hnext]
    rw [hX] at hp ⊢
    simp only [Fin.coe_ofNat_eq_mod]
    rw [if_neg (by decide), hp]
    simp [skipSpace]

/-! ## Lemmas on the recovery record -/

section record

variable {R : Type}

theorem Field.ofName_name (f : Field) : Field.ofName f.name = some f := by
  cases f <;> decide

theorem Field.name_inj {f g : Field} (h : f.name = g.name) : f = g := by
  have hf := Field.ofName_name f
  rw [h, Field.ofName_name g] at hf
  exact (Option.some.inj hf).symm

theorem Field.name_ascii (f : Field) : ∀ x ∈ f.name, x.val < 0x80 := by
  have h : f.name.all (fun x => decide (x.val < 0x80)) = true := by
    cases f <;> decide
  simpa [List.all_eq_true] using h

theorem Field.name_coerced (f : Field) : toValidUTF8 f.name = f.name := by
  cases f <;> decide

theorem Field.ofName_eq_some {k : GoString} {f : Field} (h : Field.ofName k = some f) :
    f.name = k := by
  unfold Field.ofName at h
  simpa using List.find?_some h

theorem appendRune_RuneError : appendRune RuneError = [0xEF, 0xBF, 0xBD] := by decide

/-- A string whose coercion is made of ASCII bytes is that coercion. -/
theorem runesAux_ascii (n : Nat) : ∀ (k a : GoString), k.length ≤ n →
    (∀ x ∈ a, x.val < 0x80) → ofRunes (runesAux n k) = a → k = a := by
  induction n with
  | zero =>
    intro k a hlen _ h
    have hk : k = [] := List.length_eq_zero.mp (Nat.le_zero.mp hlen)
    subst hk
    exact h
  | succ n ih =>
    intro k a hlen ha h
    rcases k with _ | ⟨b, t⟩
    · exact h
    · simp only [runesAux, ofRunes_cons] at h
      simp only [List.length_cons] at hlen
      by_cases h80 : b.val < 0x80
      · rw [decodeRune_ascii b t h80] at h
        simp only [appendRune_ascii b h80, List.drop_succ_cons, List.drop_zero,
          List.singleton_append] at h
        rcases a with _ | ⟨a0, a'⟩
        · exact absurd h (List.cons_ne_nil _ _)
        · obtain ⟨h1, h2⟩ := List.cons.inj h
          rw [h1, ih t a' (by omega) (fun x hx => ha x (List.mem_cons_of_mem _ hx)) h2]
      · exfalso
        by_cases hbad : decodeRune (b :: t) = (RuneError, 1)
        · rw [hbad, appendRune_RuneError] at h
          have := ha 0xEF (by rw [← h]; simp)
          exact absurd this (by decide)
        · obtain ⟨henc, hpos⟩ := appendRune_decodeRune (b :: t) (List.cons_ne_nil _ _) hbad
          obtain ⟨j, hj⟩ : ∃ j, (decodeRune (b :: t)).2 = j + 1 :=
            ⟨_, (Nat.sub_add_cancel hpos).symm⟩
          rw [henc, hj, List.take_succ_cons] at h
          exact h80 (ha b (by rw [← h]; simp))

theorem toValidUTF8_eq_ascii (k a : GoString) (ha : ∀ x ∈ a, x.val < 0x80)
    (h : toValidUTF8 k = a) : k = a :=
  runesAux_ascii k.length k a (le_refl _) ha h

/-- A name that is the name of no field of `FileCommand` is still the name of none
when the decoder reads it back. -/
theorem Field.ofName_coerced (k : GoString) (h : Field.ofName k = none) :
    Field.ofName (toValidUTF8 k) = none := by
  cases hc : Field.ofName (toValidUTF8 k) with
  | none => rfl
  | some f =>
    have hk := toValidUTF8_eq_ascii k f.name (Field.name_ascii f) (Field.ofName_eq_some hc).symm
    rw [hk, Field.ofName_name] at h
    exact absurd h (by simp)

theorem encodeField_eq (n : FileCommand R) (f : Field) :
    n.encodeField f = if (n.current f).isZero then none else some (n.current f) := by
  cases f <;>
    simp [FileCommand.encodeField, FileCommand.current, JValue.isZero, omitEmptyString,
      omitEmptyUint, omitEmptyInt]

theorem coerced_append (a b : JObject) :
    JObject.coerced (a ++ b) = JObject.coerced a ++ JObject.coerced b := by
  simp [JObject.coerced]

theorem coerced_member (n : FileCommand R) (f : Field) :
    JObject.coerced (n.member f)
      = match n.encodeField f with
        | none => []
        | some v => [(f.name, v.coerced)] := by
  unfold FileCommand.member
  cases n.encodeField f with
  | none => rfl
  | some v => simp [JObject.coerced, Field.name_coerced]

theorem coerced_flatten (l : List JObject) :
    JObject.coerced l.flatten = (l.map JObject.coerced).flatten := by
  induction l with
  | nil => rfl
  | cons a l ih => simp only [List.flatten_cons, coerced_append, ih, List.map_cons]

theorem values_append (a b : JObject) (k : GoString) :
    JObject.values (a ++ b) k = JObject.values a k ++ JObject.values b k := by
  simp [JObject.values]

theorem values_member (n : FileCommand R) (g f : Field) :
    JObject.values (JObject.coerced (n.member g)) f.name
      = if g = f then ((n.encodeField g).map JValue.coerced).toList else [] := by
  rw [coerced_member]
  cases h : n.encodeField g with
  | none => simp [JObject.values]
  | some v =>
    by_cases hgf : g = f
    · subst hgf
      simp [JObject.values]
    · have : g.name ≠ f.name := fun e => hgf (Field.name_inj e)
      simp [JObject.values, hgf, this]

theorem values_members (n : FileCommand R) (f : Field) (l : List Field) :
    JObject.values (JObject.coerced (l.map n.member).flatten) f.name
      = (l.map (fun g => if g = f then ((n.encodeField g).map JValue.coerced).toList
          else [])).flatten := by
  induction l with
  | nil => rfl
  | cons g l ih =>
    simp only [List.map_cons, List.flatten_cons, coerced_append, values_append, ih,
      values_member]

theorem values_baseFields (baseMembers : CommonAttackConfig R → JObject) (n : FileCommand R)
    (f : Field) : JObject.values (JObject.coerced (n.baseFields baseMembers)) f.name = [] := by
  simp only [JObject.values, JObject.coerced, FileCommand.baseFields, List.map_eq_nil_iff,
    List.filter_eq_nil_iff, List.mem_map, List.mem_filter]
  rintro m ⟨x, ⟨-, hx⟩, rfl⟩ hm
  simp only [decide_eq_true_eq] at hm
  have hnone : Field.ofName x.1 = none := by simpa using hx
  have := Field.ofName_coerced x.1 hnone
  rw [hm, Field.ofName_name] at this
  exact absurd this (by simp)

/-- The members that carry the name of a field, in the object the decoder reads. -/
theorem values_members_coerced (baseMembers : CommonAttackConfig R → JObject)
    (n : FileCommand R) (f : Field) :
    JObject.values (JObject.coerced (n.members baseMembers)) f.name
      = ((n.encodeField f).map JValue.coerced).toList := by
  unfold FileCommand.members
  rw [coerced_append, values_append, values_baseFields, values_members, List.nil_append]
  cases f <;> simp [Field.all]

end record

section roundtrip

variable {R : Type}
  (baseStore : GoString → JValue → CommonAttackConfig R → CommonAttackConfig R × Bool)

/-- Members that name no field of `FileCommand` are decoded by the base
configuration and leave the fields of `FileCommand` alone. -/
theorem foldl_storeMember_hidden (doc : JObject)
    (hdoc : ∀ m ∈ doc, Field.ofName m.1 = none) (acc : FileCommand R × Option DecodeError) :
    doc.foldl (FileCommand.storeMember baseStore) acc
      = ({ acc.1 with toCommonAttackConfig :=
            (doc.foldl (fun a m => ((baseStore m.1 m.2 a.1).1,
              firstError a.2 (baseStore m.1 m.2 a.1).2 m.1))
              (acc.1.toCommonAttackConfig, acc.2)).1 },
          (doc.foldl (fun a m => ((baseStore m.1 m.2 a.1).1,
              firstError a.2 (baseStore m.1 m.2 a.1).2 m.1))
              (acc.1.toCommonAttackConfig, acc.2)).2) := by
  induction doc generalizing acc with
  | nil => rfl
  | cons m doc ih =>
    have hm : Field.ofName m.1 = none := hdoc m (List.mem_cons_self _ _)
    simp only [List.foldl_cons]
    rw [ih (fun x hx => hdoc x (List.mem_cons_of_mem _ hx))]
    simp [FileCommand.storeMember, hm]

/-- Decoding the member read back for a field whose current value in the target is
zero puts the value of the source there. -/
theorem foldl_storeMember_member (n m : FileCommand R) (f : Field) (hv : n.ValidStrings)
    (hz : m.encodeField f = none) :
    (JObject.coerced (n.member f)).foldl (FileCommand.storeMember baseStore) (m, none)
      = (n.restore m f, none) := by
  obtain ⟨v1, v2, v3, v4, v5, v6, v7⟩ := hv
  rcases m with ⟨mb, a1, a2, a3, a4, a5, a6, a7, a8, a9, a10, a11⟩
  rw [coerced_member]
  cases f <;>
    simp only [FileCommand.encodeField, omitEmptyString, omitEmptyUint, omitEmptyInt,
      List.length_eq_zero] at hz ⊢ <;>
    split_ifs at hz ⊢ with h <;>
    simp_all [FileCommand.storeMember, Field.ofName_name, FileCommand.storeField, storeString,
      storeUint, storeInt, firstError, FileCommand.restore, toValidUTF8_of_valid,
      JValue.coerced]

/-- Storing the members read back from the record of a specification into a zero
specification gives the specification. -/
theorem storeMembers_members (baseMembers : CommonAttackConfig R → JObject) (r0 : R)
    (n : FileCommand R) (hv : n.ValidStrings)
    (hbase : CommonAttackConfig.storeMembers baseStore
        (JObject.coerced (n.baseFields baseMembers)) (CommonAttackConfig.zero r0)
      = (n.toCommonAttackConfig, none)) :
    FileCommand.storeMembers baseStore (JObject.coerced (n.members baseMembers))
        (FileCommand.zero r0) = (n, none) := by
  have hhid : ∀ m ∈ JObject.coerced (n.baseFields baseMembers), Field.ofName m.1 = none := by
    intro m hm
    simp only [JObject.coerced, FileCommand.baseFields, List.mem_map, List.mem_filter] at hm
    obtain ⟨x, ⟨-, hx⟩, rfl⟩ := hm
    exact Field.ofName_coerced x.1 (by simpa using hx)
  have hb : (JObject.coerced (n.baseFields baseMembers)).foldl
        (FileCommand.storeMember baseStore) (FileCommand.zero r0, none)
      = ({ FileCommand.zero r0 with toCommonAttackConfig := n.toCommonAttackConfig }, none) := by
    rw [foldl_storeMember_hidden baseStore _ hhid]
    unfold CommonAttackConfig.storeMembers at hbase
    simp only [FileCommand.zero]
    rw [hbase]
  unfold FileCommand.storeMembers FileCommand.members
  rw [coerced_append, List.foldl_append, hb, coerced_flatten]
  simp only [Field.all, List.map_cons, List.map_nil, List.flatten_cons, List.flatten_nil,
    List.foldl_append, List.append_nil]
  rw [foldl_storeMember_member baseStore n _ Field.FileName hv,
    foldl_storeMember_member baseStore n _ Field.DirName hv,
    foldl_storeMember_member baseStore n _ Field.Privilege hv,
    foldl_storeMember_member baseStore n _ Field.SourceFile hv,
    foldl_storeMember_member baseStore n _ Field.DestFile hv,
    foldl_storeMember_member baseStore n _ Field.Data hv,
    foldl_storeMember_member baseStore n _ Field.Count hv,
    foldl_storeMember_member baseStore n _ Field.OriginPrivilege hv,
    foldl_storeMember_member baseStore n _ Field.OriginStr hv,
    foldl_storeMember_member baseStore n _ Field.DestStr hv,
    foldl_storeMember_member baseStore n _ Field.Line hv]
  · simp only [FileCommand.restore]
  all_goals
    simp [FileCommand.restore, FileCommand.encodeField, omitEmptyString, omitEmptyInt,
      omitEmptyUint, FileCommand.zero]

/-- The decoder reads the record of a specification as the object of its members,
coerced. -/
theorem parseObject_RecoverData (baseMembers : CommonAttackConfig R → JObject)
    (n : FileCommand R) :
    parseObject (n.RecoverData baseMembers) = some (JObject.coerced (n.members baseMembers)) :=
  parseObject_render _

end roundtrip

/-! ## Properties of the recovery record -/

section recoverData

variable {R : Type}

/-- C8 as stated fails: the record written for a "create" specification whose file
name is the byte 0xFF holds the escape of U+FFFD in its place, and decoding it into
a zero specification yields a different specification, whose file name is the three
bytes of U+FFFD. -/
theorem RecoverData_roundtrip_counterexample :
    invalidName.RecoverData sampleBaseMembers
      = goStr "\x7b\"action\":\"create\",\"kind\":\"\",\"uid\":\"\",\"file-name\":\"\\ufffd\"\x7d" ∧
    FileCommand.Unmarshal sampleBaseStore (invalidName.RecoverData sampleBaseMembers)
        (FileCommand.zero ()) ≠ (invalidName, none) ∧
    (FileCommand.Unmarshal sampleBaseStore (invalidName.RecoverData sampleBaseMembers)
        (FileCommand.zero ())).1.FileName = [0xEF, 0xBF, 0xBD] := by
  decide

/-- C8, amended: for every specification whose string fields are valid UTF-8 and
whose base configuration is given back by decoding its own members, `json.Unmarshal`
of the string returned by `RecoverData` into a zero specification reports no error
and yields the original specification, field for field. -/
theorem RecoverData_roundtrip_spec
    (baseMembers : CommonAttackConfig R → JObject)
    (baseStore : GoString → JValue → CommonAttackConfig R → CommonAttackConfig R × Bool)
    (r0 : R) (n : FileCommand R) (hv : n.ValidStrings)
    (hbase : CommonAttackConfig.storeMembers baseStore
        (JObject.coerced (n.baseFields baseMembers)) (CommonAttackConfig.zero r0)
      = (n.toCommonAttackConfig, none)) :
    FileCommand.Unmarshal baseStore (n.RecoverData baseMembers) (FileCommand.zero r0)
      = (n, none) := by
  unfold FileCommand.Unmarshal
  rw [parseObject_RecoverData]
  exact storeMembers_members baseStore baseMembers r0 n hv hbase

theorem RecoverData_roundtrip_spec_witness :
    (populatedCreate.ValidStrings ∧
      CommonAttackConfig.storeMembers sampleBaseStore
        (JObject.coerced (populatedCreate.baseFields sampleBaseMembers))
        (CommonAttackConfig.zero ()) = (populatedCreate.toCommonAttackConfig, none) ∧
      FileCommand.Unmarshal sampleBaseStore (populatedCreate.RecoverData sampleBaseMembers)
        (FileCommand.zero ()) = (populatedCreate, none)) ∧
    FileCommand.Unmarshal sampleBaseStore (populatedModify.RecoverData sampleBaseMembers)
      (FileCommand.zero ()) = (populatedModify, none) ∧
    FileCommand.Unmarshal sampleBaseStore (populatedDelete.RecoverData sampleBaseMembers)
      (FileCommand.zero ()) = (populatedDelete, none) ∧
    FileCommand.Unmarshal sampleBaseStore (populatedRename.RecoverData sampleBaseMembers)
      (FileCommand.zero ()) = (populatedRename, none) ∧
    FileCommand.Unmarshal sampleBaseStore (populatedAppend.RecoverData sampleBaseMembers)
      (FileCommand.zero ()) = (populatedAppend, none) ∧
    FileCommand.Unmarshal sampleBaseStore (populatedReplace.RecoverData sampleBaseMembers)
      (FileCommand.zero ()) = (populatedReplace, none) :=
  ⟨⟨by decide, by decide,
      RecoverData_roundtrip_spec sampleBaseMembers sampleBaseStore () populatedCreate
        (by decide) (by decide)⟩,
    RecoverData_roundtrip_spec sampleBaseMembers sampleBaseStore () populatedModify
      (by decide) (by decide),
    RecoverData_roundtrip_spec sampleBaseMembers sampleBaseStore () populatedDelete
      (by decide) (by decide),
    RecoverData_roundtrip_spec sampleBaseMembers sampleBaseStore () populatedRename
      (by decide) (by decide),
    RecoverData_roundtrip_spec sampleBaseMembers sampleBaseStore () populatedAppend
      (by decide) (by decide),
    RecoverData_roundtrip_spec sampleBaseMembers sampleBaseStore () populatedReplace
      (by decide) (by decide)⟩

/-- C9 as stated fails: the object in the record written for a specification whose
directory name ends in a truncated sequence has one member "dir-name", and its value
is not the current value of the field. -/
theorem RecoverData_members_counterexample :
    ¬ ((parseObject (invalidDir.RecoverData sampleBaseMembers)).map
          (fun doc => doc.values Field.DirName.name)
        = some (if (invalidDir.current Field.DirName).isZero then []
          else [invalidDir.current Field.DirName])) := by
  decide

/-- C9, amended: for every specification and every field declared in `FileCommand`,
whatever the action, the string returned by `RecoverData` is the text of an object
that has no member with the name of the field when the field is zero (empty string,
integer 0) and exactly one otherwise; its value is the current value of the field
with the contents of a string coerced to valid UTF-8, which is the current value
itself for an integer and for a string that is valid UTF-8. -/
theorem RecoverData_members_spec (baseMembers : CommonAttackConfig R → JObject)
    (n : FileCommand R) (f : Field) :
    (parseObject (n.RecoverData baseMembers)).map (fun doc => doc.values f.name)
      = some (if (n.current f).isZero then [] else [(n.current f).coerced]) ∧
    (n.ValidStrings → (n.current f).coerced = n.current f) ∧
    (∀ i, n.current f = JValue.num i → (n.current f).coerced = n.current f) := by
  refine ⟨?_, ?_, ?_⟩
  · rw [parseObject_RecoverData, Option.map_some', values_members_coerced, encodeField_eq]
    split_ifs <;> rfl
  · rintro ⟨v1, v2, v3, v4, v5, v6, v7⟩
    cases f <;> simp [FileCommand.current, JValue.coerced, toValidUTF8_of_valid, *]
  · intro i hi
    rw [hi]
    rfl

theorem RecoverData_members_spec_witness :
    (parseObject (populatedAppend.RecoverData sampleBaseMembers)).map
        (fun doc => doc.values Field.Count.name) = some [JValue.num 3] ∧
    (parseObject (populatedAppend.RecoverData sampleBaseMembers)).map
        (fun doc => doc.values Field.Line.name) = some [] ∧
    (parseObject (populatedAppend.RecoverData sampleBaseMembers)).map
        (fun doc => doc.values Field.Data.name) = some [JValue.str populatedAppend.Data] :=
  ⟨(RecoverData_members_spec sampleBaseMembers populatedAppend Field.Count).1.trans
      (by decide),
    (RecoverData_members_spec sampleBaseMembers populatedAppend Field.Line).1.trans
      (by decide),
    (RecoverData_members_spec sampleBaseMembers populatedAppend Field.Data).1.trans
      (by decide)⟩

end recoverData

/-! ## Default completion and validation together -/

section completion

variable {R : Type} (baseValidate : CommonAttackConfig R → error) (n : FileCommand R)

theorem CompleteDefaults_cases :
    n.CompleteDefaults = n ∨
      (n.Action = FileAppendAction ∧ n.Count = 0 ∧ n.CompleteDefaults = { n with Count := 1 }) := by
  unfold FileCommand.CompleteDefaults FileCommand.setDefaultForFileAppend
  by_cases ha : n.Action = FileAppendAction
  · by_cases hc : n.Count = 0
    · exact Or.inr ⟨ha, hc, by simp [ha, hc]⟩
    · exact Or.inl (by simp [ha, hc])
  · exact Or.inl (by simp [ha])

theorem CompleteDefaults_of_ne_zero (hc : n.Count ≠ 0) : n.CompleteDefaults = n := by
  rcases CompleteDefaults_cases n with h | ⟨-, h0, -⟩
  · exact h
  · exact absurd h0 hc

/-- No rule of validation reads `Count`. -/
theorem Validate_setCount (c : Int) :
    FileCommand.Validate baseValidate { n with Count := c } = n.Validate baseValidate := by
  simp only [FileCommand.Validate, FileCommand.validFileCreate, FileCommand.validFileModify,
    FileCommand.validFileDelete, FileCommand.validFileRename, FileCommand.validFileAppend,
    FileCommand.validFileReplace]

/-- C11: `CompleteDefaults` is idempotent: applying it twice gives the same
specification as applying it once; and a call never changes a `Count` that is not
zero. -/
theorem CompleteDefaults_idempotent_spec :
    n.CompleteDefaults.CompleteDefaults = n.CompleteDefaults ∧
    (n.Count ≠ 0 → n.CompleteDefaults.Count = n.Count) := by
  constructor
  · rcases CompleteDefaults_cases n with h | ⟨-, -, h⟩
    · rw [h, h]
    · rw [h]
      exact CompleteDefaults_of_ne_zero _ (by simp)
  · intro hc
    rw [CompleteDefaults_of_ne_zero n hc]

theorem CompleteDefaults_idempotent_spec_witness :
    sampleAppend.CompleteDefaults.CompleteDefaults = sampleAppend.CompleteDefaults ∧
    sampleAppend.CompleteDefaults.CompleteDefaults.Count = 1 ∧
    populatedAppend.CompleteDefaults.Count = 3 :=
  ⟨(CompleteDefaults_idempotent_spec sampleAppend).1,
    ((CompleteDefaults_idempotent_spec sampleAppend).1 ▸ rfl :
      sampleAppend.CompleteDefaults.CompleteDefaults.Count = 1),
    (CompleteDefaults_idempotent_spec populatedAppend).2 (by decide)⟩

/-- C17: default completion never changes the outcome of validation: `Validate`
on the specification after `CompleteDefaults` returns what `Validate` returns on the
specification itself, the same success or the same error. -/
theorem Validate_CompleteDefaults_spec :
    n.CompleteDefaults.Validate baseValidate = n.Validate baseValidate := by
  rcases CompleteDefaults_cases n with h | ⟨-, -, h⟩
  · rw [h]
  · rw [h]
    exact Validate_setCount baseValidate n 1

theorem Validate_CompleteDefaults_spec_witness :
    sampleAppend.CompleteDefaults ≠ sampleAppend ∧
    sampleAppend.CompleteDefaults.Validate acceptBase = sampleAppend.Validate acceptBase ∧
    sampleAppend.Validate acceptBase = none ∧
    (blank FileAppendAction).CompleteDefaults.Validate acceptBase
      = some (goStr "file-name is required") :=
  ⟨by decide, Validate_CompleteDefaults_spec acceptBase sampleAppend, by decide,
    (Validate_CompleteDefaults_spec acceptBase (blank FileAppendAction)).trans (by decide)⟩

/-- C18: a negative append count is neither defaulted nor rejected.  For a
specification with action "append", non-empty `FileName` and `Data`, a passing base
validation and `Count < 0`: `CompleteDefaults` leaves the specification, hence
`Count`, as it is, and `Validate` succeeds before and after it, so that `Count ≥ 1`
does not hold after `CompleteDefaults`; what holds after `CompleteDefaults` for every
"append" specification is `Count ≠ 0`. -/
theorem negative_count_spec
    (hbase : baseValidate n.toCommonAttackConfig = none)
    (hact : n.Action = FileAppendAction) (hf : n.FileName ≠ []) (hd : n.Data ≠ [])
    (hc : n.Count < 0) :
    n.CompleteDefaults = n ∧ n.CompleteDefaults.Count = n.Count ∧
    n.Validate baseValidate = none ∧ n.CompleteDefaults.Validate baseValidate = none ∧
    ¬ (1 ≤ n.CompleteDefaults.Count) ∧
    (∀ m : FileCommand R, m.Action = FileAppendAction → m.CompleteDefaults.Count ≠ 0) := by
  have hne : n.Count ≠ 0 := by omega
  have hcd := CompleteDefaults_of_ne_zero n hne
  have hv : n.Validate baseValidate = none := by
    rw [Validate_append baseValidate n hbase hact]
    simp [FileCommand.validFileAppend, hf, hd]
  refine ⟨hcd, by rw [hcd], hv, by rw [hcd]; exact hv, by rw [hcd]; omega, ?_⟩
  intro m hm
  rcases CompleteDefaults_cases m with h | ⟨-, -, h⟩
  · by_cases h0 : m.Count = 0
    · have := congrArg FileCommand.Count h
      simp [FileCommand.CompleteDefaults, FileCommand.setDefaultForFileAppend, hm, h0] at this
    · rw [h]
      exact h0
  · rw [h]
    simp

theorem negative_count_spec_witness :
    acceptBase negativeAppend.toCommonAttackConfig = none ∧
    negativeAppend.Action = FileAppendAction ∧ negativeAppend.Count = -2 ∧
    negativeAppend.CompleteDefaults.Count = -2 ∧
    negativeAppend.CompleteDefaults.Validate acceptBase = none :=
  ⟨rfl, rfl, rfl,
    (negative_count_spec acceptBase negativeAppend rfl rfl (by decide) (by decide)
      (by decide)).2.1,
    (negative_count_spec acceptBase negativeAppend rfl rfl (by decide) (by decide)
      (by decide)).2.2.2.1⟩

end completion

/-! ## What validation reads and what it leaves -/

section frame

variable {R : Type}

/-- The result of `Validate` is determined by the base configuration and the
fields that occur in the rules. -/
theorem Validate_congr (baseValidate : CommonAttackConfig R → error) (n m : FileCommand R)
    (hb : n.toCommonAttackConfig = m.toCommonAttackConfig)
    (h : ∀ f ∈ FileCommand.ruleReads n.Action, n.current f = m.current f) :
    n.Validate baseValidate = m.Validate baseValidate := by
  have hA : m.Action = n.Action := by rw [← hb]
  obtain ⟨d1, d2, d3, d4, d5, d6, d7, d8, d9, d10, d11, d12, d13, d14, d15⟩ := actions_distinct
  unfold FileCommand.Validate
  rw [← hb]
  cases baseValidate n.toCommonAttackConfig with
  | some err => rfl
  | none =>
    simp only
    split_ifs with a1 a2 a3 a4 a5 a6
    · have h1 := h Field.FileName (by simp [FileCommand.ruleReads, a1])
      have h2 := h Field.DirName (by simp [FileCommand.ruleReads, a1])
      simp only [FileCommand.current, JValue.str.injEq] at h1 h2
      simp only [FileCommand.validFileCreate, h1, h2]
    · have h1 := h Field.FileName (by simp [FileCommand.ruleReads, a2, d1.symm, d6])
      have h2 := h Field.Privilege (by simp [FileCommand.ruleReads, a2, d1.symm, d6])
      simp only [FileCommand.current, JValue.str.injEq, JValue.num.injEq,
        Nat.cast_inj] at h1 h2
      simp only [FileCommand.validFileModify, h1, h2]
    · have h1 := h Field.FileName (by simp [FileCommand.ruleReads, a3])
      have h2 := h Field.DirName (by simp [FileCommand.ruleReads, a3])
      simp only [FileCommand.current, JValue.str.injEq] at h1 h2
      simp only [FileCommand.validFileDelete, h1, h2]
    · have h1 := h Field.SourceFile
        (by simp [FileCommand.ruleReads, a4, d3.symm, d7.symm, d10.symm])
      have h2 := h Field.DestFile
        (by simp [FileCommand.ruleReads, a4, d3.symm, d7.symm, d10.symm])
      simp only [FileCommand.current, JValue.str.injEq] at h1 h2
      simp only [FileCommand.validFileRename, h1, h2]
    · have h1 := h Field.FileName
        (by simp [FileCommand.ruleReads, a5, d4.symm, d8.symm, d11.symm, d13.symm])
      have h2 := h Field.Data
        (by simp [FileCommand.ruleReads, a5, d4.symm, d8.symm, d11.symm, d13.symm])
      simp only [FileCommand.current, JValue.str.injEq] at h1 h2
      simp only [FileCommand.validFileAppend, h1, h2]
    · have h1 := h Field.FileName
        (by simp [FileCommand.ruleReads, a6, d5.symm, d9.symm, d12.symm, d14.symm, d15.symm])
      have h2 := h Field.OriginStr
        (by simp [FileCommand.ruleReads, a6, d5.symm, d9.symm, d12.symm, d14.symm, d15.symm])
      have h3 := h Field.DestStr
        (by simp [FileCommand.ruleReads, a6, d5.symm, d9.symm, d12.symm, d14.symm, d15.symm])
      simp only [FileCommand.current, JValue.str.injEq] at h1 h2 h3
      simp only [FileCommand.validFileReplace, h1, h2, h3]
    · rfl

/-- C13: `Validate` ignores the fields the rule of the action does not read: two
specifications with the same base configuration, hence the same action, that agree
on the fields the rule of that action reads get the same result from `Validate`,
the same success or the same error. -/
theorem Validate_ignores_spec (baseValidate : CommonAttackConfig R → error)
    (n m : FileCommand R) (hb : n.toCommonAttackConfig = m.toCommonAttackConfig)
    (h : ∀ f ∈ FileCommand.ruleReads n.Action, n.current f = m.current f) :
    n.Validate baseValidate = m.Validate baseValidate :=
  Validate_congr baseValidate n m hb h

theorem Validate_ignores_spec_witness :
    sampleCreate.toCommonAttackConfig = sampleCreateNoise.toCommonAttackConfig ∧
    (∀ f ∈ FileCommand.ruleReads sampleCreate.Action,
      sampleCreate.current f = sampleCreateNoise.current f) ∧
    sampleCreate ≠ sampleCreateNoise ∧
    sampleCreate.Validate acceptBase = sampleCreateNoise.Validate acceptBase :=
  ⟨rfl, by decide, by decide,
    Validate_ignores_spec acceptBase sampleCreate sampleCreateNoise rfl (by decide)⟩

theorem ValidateM_fst (baseValidateM : CommonAttackConfig R → CommonAttackConfig R × error)
    (n : FileCommand R) :
    (n.ValidateM baseValidateM).1 = n.afterBase baseValidateM := by
  unfold FileCommand.ValidateM
  cases (baseValidateM n.toCommonAttackConfig).2 with
  | some err => rfl
  | none =>
    simp only [FileCommand.validFileCreateM, FileCommand.validFileModifyM,
      FileCommand.validFileDeleteM, FileCommand.validFileRenameM,
      FileCommand.validFileAppendM, FileCommand.validFileReplaceM]
    split_ifs <;> rfl

/-- C14: `Validate` never mutates the specification.  Whatever the base validation
does, every variant field has the same value after `Validate` returns as before; and
when the base validation leaves the base configuration as it is, the whole
specification, the action and the base configuration included, is the same after
`Validate` returns, whether it succeeds or fails, and the error is the one of
`Validate` as a function. -/
theorem Validate_frame_spec
    (baseValidateM : CommonAttackConfig R → CommonAttackConfig R × error) (n : FileCommand R) :
    (∀ f : Field, (n.ValidateM baseValidateM).1.current f = n.current f) ∧
    ((baseValidateM n.toCommonAttackConfig).1 = n.toCommonAttackConfig →
      (n.ValidateM baseValidateM).1 = n) ∧
    ((∀ b, (baseValidateM b).1 = b) →
      n.ValidateM baseValidateM = (n, n.Validate (fun b => (baseValidateM b).2))) := by
  refine ⟨fun f => ?_, fun hb => ?_, fun hall => ?_⟩
  · rw [ValidateM_fst]
    cases f <;> rfl
  · rw [ValidateM_fst]
    unfold FileCommand.afterBase
    rw [hb]
  · have hn : n.afterBase baseValidateM = n := by
      unfold FileCommand.afterBase
      rw [hall]
    unfold FileCommand.ValidateM FileCommand.Validate
    rw [hn]
    beta_reduce
    cases (baseValidateM n.toCommonAttackConfig).2 with
    | some err => rfl
    | none =>
      simp only [FileCommand.validFileCreateM, FileCommand.validFileModifyM,
        FileCommand.validFileDeleteM, FileCommand.validFileRenameM,
        FileCommand.validFileAppendM, FileCommand.validFileReplaceM]
      split_ifs <;> rfl

theorem Validate_frame_spec_witness :
    (acceptBaseM sampleModify.toCommonAttackConfig).1 = sampleModify.toCommonAttackConfig ∧
    (sampleModify.ValidateM acceptBaseM).1 = sampleModify ∧
    (sampleModify.ValidateM acceptBaseM).2 = some (goStr "file privilege is required") ∧
    (sampleAppend.ValidateM acceptBaseM).1 = sampleAppend ∧
    (sampleAppend.ValidateM acceptBaseM).2 = none :=
  ⟨rfl, (Validate_frame_spec acceptBaseM sampleModify).2.1 rfl, by decide,
    (Validate_frame_spec acceptBaseM sampleAppend).2.1 rfl, by decide⟩

/-- C15: the specification `NewFileCommand` returns has an empty action, the kind
`FileAttack` and every variant field zero; so whenever the base validation passes,
`Validate` rejects it with the error for an unsupported action, "file action  not
supported" with an empty tag. -/
theorem NewFileCommand_spec (FileAttack : GoString) (r0 : R) :
    (NewFileCommand FileAttack r0).Action = [] ∧
    (NewFileCommand FileAttack r0).Kind = FileAttack ∧
    (∀ f : Field, ((NewFileCommand FileAttack r0).current f).isZero = true) ∧
    (∀ baseValidate : CommonAttackConfig R → error,
      baseValidate (NewFileCommand FileAttack r0).toCommonAttackConfig = none →
      (NewFileCommand FileAttack r0).Validate baseValidate
        = some (goStr "file action  not supported")) := by
  refine ⟨rfl, rfl, fun f => by cases f <;> rfl, fun baseValidate hbase => ?_⟩
  have hA : (NewFileCommand FileAttack r0).Action = [] := rfl
  have e1 : ([] : GoString) ≠ FileCreateAction := by decide
  have e2 : ([] : GoString) ≠ FileModifyPrivilegeAction := by decide
  have e3 : ([] : GoString) ≠ FileDeleteAction := by decide
  have e4 : ([] : GoString) ≠ FileRenameAction := by decide
  have e5 : ([] : GoString) ≠ FileAppendAction := by decide
  have e6 : ([] : GoString) ≠ FileReplaceAction := by decide
  have hmsg : goStr "file action " ++ ([] : GoString) ++ goStr " not supported"
      = goStr "file action  not supported" := by decide
  simp only [FileCommand.Validate, hbase, hA, if_neg e1, if_neg e2, if_neg e3, if_neg e4,
    if_neg e5, if_neg e6, hmsg]

theorem NewFileCommand_spec_witness :
    acceptBase (NewFileCommand (goStr "file") ()).toCommonAttackConfig = none ∧
    (NewFileCommand (goStr "file") ()).Kind = goStr "file" ∧
    (NewFileCommand (goStr "file") ()).Validate acceptBase
      = some (goStr "file action  not supported") :=
  ⟨rfl, (NewFileCommand_spec (goStr "file") ()).2.1,
    (NewFileCommand_spec (goStr "file") ()).2.2.2 acceptBase rfl⟩

end frame

/-! ## Totality of the recovery record -/

section total

variable {R : Type}

theorem render_ne_nil (doc : JObject) : render doc ≠ [] := by
  cases doc <;> simp [render]

theorem encodeMembers_append (a b : List (GoString × GoValue)) :
    encodeMembers (a ++ b)
      = match encodeMembers a with
        | Except.error e => Except.error e
        | Except.ok da =>
          match encodeMembers b with
          | Except.error e => Except.error e
          | Except.ok db => Except.ok (da ++ db) := by
  induction a with
  | nil =>
    simp only [List.nil_append, encodeMembers]
    cases encodeMembers b <;> rfl
  | cons m a ih =>
    show encodeMembers (m :: (a ++ b)) = _
    simp only [encodeMembers]
    rw [ih]
    cases encodeValue m.2 with
    | error e => rfl
    | ok j =>
      cases encodeMembers a with
      | error e => rfl
      | ok da =>
        cases encodeMembers b with
        | error e => rfl
        | ok db => rfl

/-- The members written carry the names of the fields visited, and each field
visited is written as a member. -/
theorem encodeMembers_ok (l : List (GoString × GoValue)) :
    ∀ doc, encodeMembers l = Except.ok doc →
      (∀ x ∈ doc, ∃ m ∈ l, x.1 = m.1) ∧
      (∀ m ∈ l, ∃ j, encodeValue m.2 = Except.ok j ∧ (m.1, j) ∈ doc) := by
  induction l with
  | nil =>
    intro doc h
    simp only [encodeMembers, Except.ok.injEq] at h
    subst h
    simp
  | cons m l ih =>
    intro doc h
    simp only [encodeMembers] at h
    cases hv : encodeValue m.2 with
    | error e => simp [hv] at h
    | ok j =>
      cases hl : encodeMembers l with
      | error e => simp [hv, hl] at h
      | ok d =>
        simp only [hv, hl, Except.ok.injEq] at h
        subst h
        obtain ⟨h1, h2⟩ := ih d hl
        refine ⟨?_, ?_⟩
        · intro x hx
          rcases List.mem_cons.mp hx with rfl | hx
          · exact ⟨m, List.mem_cons_self _ _, rfl⟩
          · obtain ⟨y, hy, e⟩ := h1 x hx
            exact ⟨y, List.mem_cons_of_mem _ hy, e⟩
        · intro y hy
          rcases List.mem_cons.mp hy with rfl | hy
          · exact ⟨j, hv, List.mem_cons_self _ _⟩
          · obtain ⟨k, hk, hmem⟩ := h2 y hy
            exact ⟨k, hk, List.mem_cons_of_mem _ hmem⟩

theorem encodeMembers_ofJValue (doc : JObject) :
    encodeMembers (doc.map (fun m => (m.1, GoValue.ofJValue m.2))) = Except.ok doc := by
  induction doc with
  | nil => rfl
  | cons m doc ih =>
    obtain ⟨k, v⟩ := m
    simp only [List.map_cons, encodeMembers, ih]
    cases v <;> rfl

theorem fieldValue_isEmptyValue (n : FileCommand R) (f : Field) :
    (n.fieldValue f).isEmptyValue = (n.current f).isZero := by
  cases f <;>
    simp [FileCommand.fieldValue, FileCommand.current, GoValue.isEmptyValue, JValue.isZero]

/-- The encoder of the type of a field of `FileCommand` reports no error. -/
theorem encodeValue_fieldValue (n : FileCommand R) (f : Field) :
    encodeValue (n.fieldValue f) = Except.ok (n.current f) := by
  cases f <;> rfl

theorem member_eq (n : FileCommand R) (f : Field) :
    n.member f = if (n.current f).isZero then [] else [(f.name, n.current f)] := by
  unfold FileCommand.member
  rw [encodeField_eq]
  split_ifs <;> rfl

theorem encodeMembers_fields (n : FileCommand R) (l : List Field) :
    encodeMembers ((l.filter (fun f => !(n.fieldValue f).isEmptyValue)).map
        (fun f => (f.name, n.fieldValue f)))
      = Except.ok (l.map n.member).flatten := by
  induction l with
  | nil => rfl
  | cons f l ih =>
    rw [List.filter_cons, List.map_cons, List.flatten_cons, member_eq,
      fieldValue_isEmptyValue]
    by_cases hz : (n.current f).isZero = true
    · simp only [hz, Bool.not_true, if_true, List.nil_append]
      exact ih
    · simp only [hz, Bool.not_false, if_true, if_false, List.map_cons, encodeMembers,
        encodeValue_fieldValue, ih, List.singleton_append]
      simp [hz]

/-- No field of `FileCommand` makes `json.Marshal` report an error. -/
theorem encodeMembers_fieldValues (n : FileCommand R) :
    encodeMembers n.fieldValues = Except.ok (Field.all.map n.member).flatten :=
  encodeMembers_fields n Field.all

theorem values_hidden_coerced (doc : JObject) (f : Field)
    (h : ∀ m ∈ doc, Field.ofName m.1 = none) :
    JObject.values (JObject.coerced doc) f.name = [] := by
  simp only [JObject.values, JObject.coerced, List.map_eq_nil_iff, List.filter_eq_nil_iff,
    List.mem_map]
  rintro m ⟨x, hx, rfl⟩ hm
  simp only [decide_eq_true_eq] at hm
  have := Field.ofName_coerced x.1 (h x hx)
  rw [hm, Field.ofName_name] at this
  exact absurd this (by simp)

theorem values_own_coerced (n : FileCommand R) (f : Field) :
    JObject.values (JObject.coerced (Field.all.map n.member).flatten) f.name
      = if (n.current f).isZero then [] else [(n.current f).coerced] := by
  have h : JObject.values (JObject.coerced (Field.all.map n.member).flatten) f.name
      = ((n.encodeField f).map JValue.coerced).toList := by
    rw [values_members]
    cases f <;> simp [Field.all]
  rw [h, encodeField_eq]
  split_ifs <;> rfl

/-- The outcome of `json.Marshal` in terms of the outcome of the fields of the base
configuration. -/
theorem MarshalResult_eq (baseValues : CommonAttackConfig R → List (GoString × GoValue))
    (n : FileCommand R) :
    n.MarshalResult baseValues
      = match encodeMembers ((baseValues n.toCommonAttackConfig).filter
            (fun m => (Field.ofName m.1).isNone)) with
        | Except.error e => ([], some e)
        | Except.ok bdoc => (render (bdoc ++ (Field.all.map n.member).flatten), none) := by
  unfold FileCommand.MarshalResult
  rw [encodeMembers_append, encodeMembers_fieldValues]
  cases encodeMembers ((baseValues n.toCommonAttackConfig).filter
      (fun m => (Field.ofName m.1).isNone)) <;> rfl

/-- C12 as stated fails: the text `RecoverData` returns does not always describe the
current field state.  Two "append" specifications that differ in their data, the
byte 0x80 and the byte 0xFE, get the same text, and the value the object in that
text holds for "data" is not the current value of the field. -/
theorem RecoverData_total_counterexample :
    invalidData ≠ invalidDataOther ∧
    invalidData.RecoverDataOf sampleBaseValues
      = invalidDataOther.RecoverDataOf sampleBaseValues ∧
    ¬ ((parseObject (invalidData.RecoverDataOf sampleBaseValues)).map
          (fun doc => doc.values Field.Data.name)
        = some [invalidData.current Field.Data]) := by
  decide

/-- C12, amended: no field declared in `FileCommand` makes `json.Marshal` report an
error, so its error is the one met in the embedded base configuration, if any (with
one, the data is nil).  Whenever the fields of the base configuration are written
without error, as the members `bdoc`, the error is nil, the string `RecoverData`
returns is not empty, and it is the text of an object that holds, in order, the
members of the base configuration and one member for each variant field that is not
zero, whatever the action, with the current value of the field as the encoder writes
it: a string coerced to valid UTF-8, which is the current value itself for an
integer and for a string that is valid UTF-8.  This string is the one of
`RecoverData` above when the base configuration is written as `baseMembers`. -/
theorem RecoverData_total_spec
    (baseValues : CommonAttackConfig R → List (GoString × GoValue)) (n : FileCommand R) :
    (∀ e : MarshalError,
      encodeMembers ((baseValues n.toCommonAttackConfig).filter
          (fun m => (Field.ofName m.1).isNone)) = Except.error e →
        n.MarshalResult baseValues = ([], some e)) ∧
    (∀ bdoc : JObject,
      encodeMembers ((baseValues n.toCommonAttackConfig).filter
          (fun m => (Field.ofName m.1).isNone)) = Except.ok bdoc →
        (n.MarshalResult baseValues).2 = none ∧
        n.RecoverDataOf baseValues ≠ [] ∧
        parseObject (n.RecoverDataOf baseValues)
          = some (JObject.coerced bdoc
              ++ JObject.coerced (Field.all.map n.member).flatten) ∧
        (∀ m ∈ baseValues n.toCommonAttackConfig, Field.ofName m.1 = none →
          ∃ j, encodeValue m.2 = Except.ok j ∧
            (toValidUTF8 m.1, j.coerced) ∈ JObject.coerced bdoc) ∧
        (∀ f : Field,
          JObject.values
              (JObject.coerced bdoc ++ JObject.coerced (Field.all.map n.member).flatten)
              f.name
            = if (n.current f).isZero then [] else [(n.current f).coerced]) ∧
        (n.ValidStrings → ∀ f : Field, (n.current f).coerced = n.current f)) ∧
    (∀ baseMembers : CommonAttackConfig R → JObject,
      baseValues n.toCommonAttackConfig
          = (baseMembers n.toCommonAttackConfig).map (fun m => (m.1, GoValue.ofJValue m.2)) →
        n.MarshalResult baseValues = (n.RecoverData baseMembers, none)) := by
  refine ⟨fun e he => by rw [MarshalResult_eq, he], fun bdoc hbase => ?_,
    fun baseMembers hbm => ?_⟩
  · have hres : n.MarshalResult baseValues
        = (render (bdoc ++ (Field.all.map n.member).flatten), none) := by
      rw [MarshalResult_eq, hbase]
    have htext : n.RecoverDataOf baseValues
        = render (bdoc ++ (Field.all.map n.member).flatten) := by
      unfold FileCommand.RecoverDataOf
      rw [hres]
    obtain ⟨hkeys, hmem⟩ := encodeMembers_ok _ bdoc hbase
    have hhid : ∀ x ∈ bdoc, Field.ofName x.1 = none := by
      intro x hx
      obtain ⟨m, hm, e⟩ := hkeys x hx
      rw [e]
      simpa using (List.mem_filter.mp hm).2
    refine ⟨by rw [hres], by rw [htext]; exact render_ne_nil _, ?_, ?_, ?_, ?_⟩
    · rw [htext, parseObject_render, coerced_append]
    · intro m hm hnone
      obtain ⟨j, hj, hin⟩ := hmem m (List.mem_filter.mpr ⟨hm, by simp [hnone]⟩)
      refine ⟨j, hj, ?_⟩
      simp only [JObject.coerced, List.mem_map]
      exact ⟨(m.1, j), hin, rfl⟩
    · intro f
      rw [values_append, values_hidden_coerced bdoc f hhid, List.nil_append,
        values_own_coerced]
    · rintro ⟨v1, v2, v3, v4, v5, v6, v7⟩ f
      cases f <;> simp [FileCommand.current, JValue.coerced, toValidUTF8_of_valid, *]
  · have hfil : (baseValues n.toCommonAttackConfig).filter
          (fun m => (Field.ofName m.1).isNone)
        = (n.baseFields baseMembers).map (fun m => (m.1, GoValue.ofJValue m.2)) := by
      rw [hbm, FileCommand.baseFields, List.filter_map]
      rfl
    rw [MarshalResult_eq, hfil, encodeMembers_ofJValue]
    rfl

theorem RecoverData_total_spec_witness :
    encodeMembers ((sampleBaseValues populatedAppend.toCommonAttackConfig).filter
        (fun m => (Field.ofName m.1).isNone))
      = Except.ok [(goStr "action", JValue.str (goStr "append")),
          (goStr "kind", JValue.str (goStr "file")), (goStr "uid", JValue.str (goStr "u-5"))] ∧
    (populatedAppend.MarshalResult sampleBaseValues).2 = none ∧
    populatedAppend.RecoverDataOf sampleBaseValues ≠ [] ∧
    populatedAppend.RecoverDataOf sampleBaseValues
      = goStr ("\x7b\"action\":\"append\",\"kind\":\"file\",\"uid\":\"u-5\","
          ++ "\"file-name\":\"/tmp/a.txt\",\"data\":\"x\\n\\\"y\\\" €\",\"count\":3\x7d") ∧
    populatedAppend.MarshalResult sampleBaseValues
      = (populatedAppend.RecoverData sampleBaseMembers, none) ∧
    invalidData.MarshalResult refusedBaseValues
      = ([], some MarshalError.UnsupportedTypeError) :=
  ⟨rfl,
    ((RecoverData_total_spec sampleBaseValues populatedAppend).2.1 _ rfl).1,
    ((RecoverData_total_spec sampleBaseValues populatedAppend).2.1 _ rfl).2.1,
    by decide,
    (RecoverData_total_spec sampleBaseValues populatedAppend).2.2 sampleBaseMembers rfl,
    (RecoverData_total_spec refusedBaseValues invalidData).1
      MarshalError.UnsupportedTypeError rfl⟩

end total

/-! ## The command paths -/

section paths

variable {R : Type} (baseValidate : CommonAttackConfig R → error) (uid : GoString)
  (options : FileCommand R)

/-- C16: of the six command paths only those of "create" and "delete" invoke
`CompleteDefaults` between setting the action and validation; the path of "append"
does not.  So for options with non-empty `FileName` and `Data` and `Count = 0`, the
base validation passing, the "append" path passes validation and hands the executor
a specification whose `Count` is still 0, where `CompleteDefaults` would have made
it 1. -/
theorem append_path_spec
    (hf : options.FileName ≠ []) (hd : options.Data ≠ []) (hc : options.Count = 0)
    (hbase : baseValidate
      (provideOptions uid { options with Action := FileAppendAction }).toCommonAttackConfig
        = none) :
    (NewFileAppendCommand baseValidate uid options
      = AttackOutcome.executeAttack
          (provideOptions uid { options with Action := FileAppendAction }) ∧
      (provideOptions uid { options with Action := FileAppendAction }).Count = 0 ∧
      (FileCommand.CompleteDefaults { options with Action := FileAppendAction }).Count = 1) ∧
    (NewFileCreateCommand baseValidate uid options
        = commonFileAttackFunc baseValidate
            (provideOptions uid
              (FileCommand.CompleteDefaults { options with Action := FileCreateAction })) ∧
      NewFileDeleteCommand baseValidate uid options
        = commonFileAttackFunc baseValidate
            (provideOptions uid
              (FileCommand.CompleteDefaults { options with Action := FileDeleteAction })) ∧
      NewFileModifyPrivilegeCommand baseValidate uid options
        = commonFileAttackFunc baseValidate
            (provideOptions uid { options with Action := FileModifyPrivilegeAction }) ∧
      NewFileRenameCommand baseValidate uid options
        = commonFileAttackFunc baseValidate
            (provideOptions uid { options with Action := FileRenameAction }) ∧
      NewFileAppendCommand baseValidate uid options
        = commonFileAttackFunc baseValidate
            (provideOptions uid { options with Action := FileAppendAction }) ∧
      NewFileReplaceCommand baseValidate uid options
        = commonFileAttackFunc baseValidate
            (provideOptions uid { options with Action := FileReplaceAction })) := by
  refine ⟨⟨?_, hc, ?_⟩, rfl, rfl, rfl, rfl, rfl, rfl⟩
  · have hv : (provideOptions uid { options with Action := FileAppendAction }).Validate
        baseValidate = none := by
      rw [Validate_append baseValidate _ hbase rfl]
      have hf' : (provideOptions uid { options with Action := FileAppendAction }).FileName
          ≠ [] := hf
      have hd' : (provideOptions uid { options with Action := FileAppendAction }).Data
          ≠ [] := hd
      simp [FileCommand.validFileAppend, hf', hd']
    simp only [NewFileAppendCommand, commonFileAttackFunc, hv]
  · simp [FileCommand.CompleteDefaults, FileCommand.setDefaultForFileAppend, hc]

theorem append_path_spec_witness :
    appendOptions.FileName ≠ [] ∧ appendOptions.Data ≠ [] ∧ appendOptions.Count = 0 ∧
    acceptBase
      (provideOptions (goStr "u-7")
        { appendOptions with Action := FileAppendAction }).toCommonAttackConfig = none ∧
    NewFileAppendCommand acceptBase (goStr "u-7") appendOptions
      = AttackOutcome.executeAttack
          (provideOptions (goStr "u-7") { appendOptions with Action := FileAppendAction }) ∧
    (provideOptions (goStr "u-7") { appendOptions with Action := FileAppendAction }).Count
      = 0 :=
  ⟨by decide, by decide, rfl, rfl,
    (append_path_spec acceptBase (goStr "u-7") appendOptions (by decide) (by decide) rfl
      rfl).1.1,
    (append_path_spec acceptBase (goStr "u-7") appendOptions (by decide) (by decide) rfl
      rfl).1.2.1⟩

end paths

end core
